import Mathlib

/-!
Verification development for the agent-parksuit repository.

The definitions below are shallow embeddings of the Python sources:
* `services/react_clarify_gate.py` (resolver gate),
* `services/hybrid_answering.py` (session-memory persistence),
* `tools/biz_fact_tools.py` (fee-verify amount check),
* `services/billing_engine.py` (time-window billing engine),
* `repositories/knowledge.py` (retrieval ordering).

Machine integers are modelled as `Int`/`Nat`; `decimal.Decimal` values are
modelled as `ℚ` (all arithmetic performed on them in the sources is exact
addition/multiplication plus explicit quantisation, which is modelled by
explicit rounding functions); timestamps are modelled as absolute integer
seconds, and (fixed-offset) timezones as integer minute offsets.
-/

namespace Parksuite

/-! ## Request payload (schemas/answer.py `HybridAnswerRequest`, slot fields) -/

/-- The slot-bearing part of `HybridAnswerRequest`. -/
structure Payload where
  query : String
  intentHint : Option String
  cityCode : Option String
  lotCode : Option String
  plateNo : Option String
  orderNo : Option String
  atTime : Option String
  deriving DecidableEq, Repr

/-- `model_copy(update={key: value})` restricted to the slot fields the
resolver writes; unknown keys are ignored (pydantic would attach them as
extra attributes that no later code reads). -/
def applySlotUpdate (p : Payload) (kv : String × Option String) : Payload :=
  match kv.1 with
  | "intent_hint" => { p with intentHint := kv.2 }
  | "city_code" => { p with cityCode := kv.2 }
  | "lot_code" => { p with lotCode := kv.2 }
  | "plate_no" => { p with plateNo := kv.2 }
  | "order_no" => { p with orderNo := kv.2 }
  | "at_time" => { p with atTime := kv.2 }
  | _ => p

/-- `payload.model_copy(update=updates)` over a dict of slot updates. -/
def applySlotUpdates (p : Payload) (updates : List (String × Option String)) : Payload :=
  updates.foldl applySlotUpdate p

/-! ## ReAct clarify gate (services/react_clarify_gate.py) -/

/-- A serialized clarify message, with its content already JSON-decoded:
`toolName`/`hit` are the `"tool"`/`"hit"` fields of the decoded dict when the
content is a JSON object (`toolName := none` models empty, non-JSON or
non-dict content, `hit := none` models a missing or non-boolean `hit`). -/
structure ToolMsg where
  role : String
  content : String
  toolName : Option String
  hit : Option Bool
  deriving DecidableEq, Repr

/-- `ClarifyResult` dataclass of services/clarify_agent.py (all ten fields). -/
structure ClarifyResultE where
  decision : String
  clarifyQuestion : Option String
  resolvedSlots : List (String × Option String)
  slotUpdates : List (String × Option String)
  resolvedIntent : Option String
  routeTarget : Option String
  intentEvidence : List String
  missingRequiredSlots : List String
  trace : List String
  messages : List ToolMsg
  deriving DecidableEq, Repr

/-- `ReactClarifyGateResult` dataclass of services/react_clarify_gate.py. -/
structure GateResultE where
  decision : String
  payload : Payload
  clarifyReason : Option String
  clarifyError : Option String
  trace : List String
  clarifyMessages : Option (List ToolMsg)
  deriving DecidableEq, Repr

/-- `_collect_tool_hit_flags`: the last seen boolean `hit` value per tool name
over the message list. -/
def collectToolHitFlags (messages : List ToolMsg) : Option Bool × Option Bool :=
  messages.foldl
    (fun acc item =>
      if item.role ≠ "tool" then acc
      else
        match item.toolName, item.hit with
        | some tool, some hitRaw =>
          let acc1 := if tool = "lookup_order" then (some hitRaw, acc.2) else acc
          if tool = "query_billing_rules_by_params" then (acc1.1, some hitRaw) else acc1
        | _, _ => acc)
    (none, none)

/-- `_should_enter_react` (lines 33-45): decide whether the ReAct loop is
needed, returning the flag and the trace entries. -/
def shouldEnterReact (parseIntent : Option String) (hydrateMissing : List String) :
    Bool × List String :=
  if parseIntent = none then
    (true, ["react_clarify_gate_async:need_react:missing_intent"])
  else if hydrateMissing ≠ [] then
    (true, ["react_clarify_gate_async:need_react:missing_required_slots"])
  else (false, [])

/-- `_short_circuit_if_possible` (lines 48-81). -/
def shortCircuitIfPossible (parseIntent : Option String) (hydratePayload : Payload)
    (hydrateMissing : List String) (trace : List String) : Option GateResultE :=
  if parseIntent = none ∨ hydrateMissing = [] then none
  else if "order_no" ∈ hydrateMissing then
    some
      { decision := "clarify_short_circuit"
        payload := hydratePayload
        clarifyReason := some "请提供要核验的订单号（order_no，例如 SCN-020）。"
        clarifyError := some "missing_order_no"
        trace := trace ++ ["react_clarify_gate_async:short_circuit:missing_order_no"]
        clarifyMessages := none }
  else if "plate_no" ∈ hydrateMissing then
    some
      { decision := "clarify_short_circuit"
        payload := hydratePayload
        clarifyReason := some "请提供要查询欠费的车牌号（plate_no，例如 沪A12345）。"
        clarifyError := some "missing_plate_no"
        trace := trace ++ ["react_clarify_gate_async:short_circuit:missing_plate_no"]
        clarifyMessages := none }
  else
    some
      { decision := "clarify_short_circuit"
        payload := hydratePayload
        clarifyReason := some "请补充必要信息后继续。"
        clarifyError := some "missing_required_slots"
        trace := trace ++ ["react_clarify_gate_async:short_circuit:missing_required_slots"]
        clarifyMessages := none }

/-- `_normalize_react_result` (lines 169-242).  Note: the source never reads
`react_result.resolved_intent` or `react_result.route_target`; when the parsed
intent is unknown it branches on tool-hit trace tags instead. -/
def normalizeReactResult (parseIntent : Option String) (hydratePayload : Payload)
    (trace : List String) (reactResult : ClarifyResultE) : GateResultE :=
  let reactDecision := reactResult.decision
  let reactMessages := reactResult.messages
  let reactTrace := reactResult.trace
  let mergedPayload := applySlotUpdates hydratePayload reactResult.resolvedSlots
  let reactMissing := reactResult.missingRequiredSlots
  if parseIntent = none then
    if reactDecision = "continue_business" ∧
        "react_clarify_gate_async:tool_hit:query_billing_rules_by_params" ∈ reactTrace then
      { decision := "continue_business"
        payload := { mergedPayload with intentHint := some "rule_explain" }
        clarifyReason := none
        clarifyError := none
        trace := trace ++ reactTrace ++ ["react_clarify_gate_async:infer_intent:rule_explain"]
        clarifyMessages := some reactMessages }
    else if reactDecision = "continue_business" ∧
        "react_clarify_gate_async:tool_hit:lookup_order" ∈ reactTrace then
      { decision := "continue_business"
        payload := { mergedPayload with intentHint := some "arrears_check" }
        clarifyReason := none
        clarifyError := none
        trace := trace ++ reactTrace ++ ["react_clarify_gate_async:infer_intent:arrears_check"]
        clarifyMessages := some reactMessages }
    else
      { decision := "clarify_react"
        payload := mergedPayload
        clarifyReason :=
          some (reactResult.clarifyQuestion.getD "请先确认你的问题类型：规则解释、欠费查询，还是订单金额核验？")
        clarifyError := some "missing_intent"
        trace := trace ++ reactTrace ++ ["react_clarify_gate_async:pending_intent"]
        clarifyMessages := some reactMessages }
  else if reactDecision = "continue_business" ∧ reactMissing = [] then
    { decision := "continue_business"
      payload := mergedPayload
      clarifyReason := none
      clarifyError := none
      trace := trace ++ reactTrace ++ ["react_clarify_gate_async:continue_business"]
      clarifyMessages := some reactMessages }
  else if reactDecision = "clarify_abort" then
    { decision := "clarify_abort"
      payload := mergedPayload
      clarifyReason := some (reactResult.clarifyQuestion.getD "当前信息仍不足以继续，请补充关键信息后重试。")
      clarifyError := some "clarify_abort"
      trace := trace ++ reactTrace ++ ["react_clarify_gate_async:abort"]
      clarifyMessages := some reactMessages }
  else
    { decision := "clarify_react"
      payload := mergedPayload
      clarifyReason := some (reactResult.clarifyQuestion.getD "请补充必要信息后继续。")
      clarifyError := some "clarify_react_required"
      trace := trace ++ reactTrace ++ ["react_clarify_gate_async:clarify_react"]
      clarifyMessages := some reactMessages }

/-- Outcome of `clarify_agent.run_clarify_task` as observed by the gate:
`Except.error ()` models a raised exception. -/
abbrev AgentOutcome := Except Unit ClarifyResultE

/-- `_invoke_react_once` (lines 112-166).  On an agent exception it returns
the deterministic `clarify_fallback` result.  On success the source then
re-constructs `ClarifyResult` passing only six of its ten required dataclass
fields, which raises `TypeError`; that uncaught exception is modelled as
`Except.error msg` of the whole call. -/
def invokeReactOnce (hydratePayload : Payload) (trace : List String)
    (agentOutcome : AgentOutcome) :
    Except String (Option ClarifyResultE × Option GateResultE) :=
  match agentOutcome with
  | Except.error _ =>
    Except.ok
      (none,
        some
          { decision := "clarify_short_circuit"
            payload := hydratePayload
            clarifyReason := some "当前澄清流程暂不可用，请补充必要信息后继续。"
            clarifyError := some "clarify_fallback"
            trace := trace ++ ["react_clarify_gate_async:fallback:react_error"]
            clarifyMessages := none })
  | Except.ok _ =>
    Except.error "TypeError: ClarifyResult.__init__ missing slot_updates, resolved_intent, route_target, intent_evidence"

/-- `react_clarify_gate_async` (lines 245-308), instrumented with a flag that
records whether the ReAct agent (the LLM path) was invoked.  `Except.error`
models an uncaught exception escaping the gate. -/
def reactClarifyGateAsync (parseIntent : Option String) (hydratePayload : Payload)
    (hydrateMissing : List String) (agentOutcome : AgentOutcome) :
    Except String (GateResultE × Bool) :=
  let needReactTrace := shouldEnterReact parseIntent hydrateMissing
  if needReactTrace.1 = false then
    Except.ok
      ({ decision := "continue_business"
         payload := hydratePayload
         clarifyReason := none
         clarifyError := none
         trace := if needReactTrace.2 = [] then ["react_clarify_gate_async:pass"] else needReactTrace.2
         clarifyMessages := none }, false)
  else
    match shortCircuitIfPossible parseIntent hydratePayload hydrateMissing needReactTrace.2 with
    | some shortCircuit => Except.ok (shortCircuit, false)
    | none =>
      let trace := needReactTrace.2 ++ ["react_clarify_gate_async:enter_react"]
      match invokeReactOnce hydratePayload trace agentOutcome with
      | Except.error msg => Except.error msg
      | Except.ok (reactResult, fallback) =>
        match fallback with
        | some fb => Except.ok (fb, true)
        | none =>
          let rr := reactResult.getD
            { decision := "clarify_react"
              clarifyQuestion := none
              resolvedSlots := []
              slotUpdates := []
              resolvedIntent := none
              routeTarget := none
              intentEvidence := []
              missingRequiredSlots := []
              trace := []
              messages := [] }
          Except.ok (normalizeReactResult parseIntent hydratePayload trace rr, true)

/-- The three valid intents (`_VALID_INTENTS`). -/
def validIntents : List String := ["rule_explain", "arrears_check", "fee_verify"]

/-! ## Decimal quantisation (decimal.Decimal on ℚ) -/

/-- Round to the nearest integer, ties away from zero
(`decimal.ROUND_HALF_UP`). -/
def roundHalfUp (x : ℚ) : ℤ :=
  let n := ⌊x⌋
  let frac := x - n
  if frac < 1 / 2 then n
  else if frac > 1 / 2 then n + 1
  else if 0 ≤ x then n + 1 else n

/-- Round to the nearest integer, ties to the even neighbour
(`decimal.ROUND_HALF_EVEN`, the default rounding of the default decimal
context). -/
def roundHalfEven (x : ℚ) : ℤ :=
  let n := ⌊x⌋
  let frac := x - n
  if frac < 1 / 2 then n
  else if frac > 1 / 2 then n + 1
  else if Even n then n else n + 1

/-- `value.quantize(Decimal("0.01"), rounding=ROUND_HALF_UP)`. -/
def quantizeHalfUp (x : ℚ) : ℚ := (roundHalfUp (x * 100) : ℚ) / 100

/-- `value.quantize(Decimal("0.01"), rounding=ROUND_HALF_EVEN)`. -/
def quantizeHalfEven (x : ℚ) : ℚ := (roundHalfEven (x * 100) : ℚ) / 100

/-! ## Fee-verify amount check (tools/biz_fact_tools.py) -/

/-- `_normalize_decimal_str` (line 14-15): `str(Decimal(str(value)).quantize(Decimal("0.01")))`,
modelled by its cent value.  `quantize` is called without a `rounding`
argument, so the context default `ROUND_HALF_EVEN` applies.  Two quantized
two-decimal values print as the same string exactly when their cent values
are equal (for values arising from `ℚ`). -/
def normalizeDecimalCents (value : ℚ) : ℤ := roundHalfEven (value * 100)

/-- The amount-comparison tail of `build_fee_verify_facts` (lines 144-165):
the fields of the returned fact dict that depend on the two totals. -/
structure FeeVerifyCheck where
  orderTotalCents : ℤ
  simTotalCents : ℤ
  amountCheckResult : String
  amountCheckAction : String
  deriving DecidableEq, Repr

/-- `build_fee_verify_facts` success path after the order fetch and the
simulate call both returned: compare the normalized totals. -/
def feeVerifyAmountCheck (orderTotal simTotal : ℚ) : FeeVerifyCheck :=
  let orderCents := normalizeDecimalCents orderTotal
  let simCents := normalizeDecimalCents simTotal
  let isConsistent := orderCents = simCents
  { orderTotalCents := orderCents
    simTotalCents := simCents
    amountCheckResult := if isConsistent then "一致" else "不一致"
    amountCheckAction := if isConsistent then "自动通过" else "需人工复核" }

/-! ## Session-memory persistence (services/hybrid_answering.py `_persist_session_memory`,
and the write in api/routes.py `debug_clarify_react_route`) -/

/-- One entry of `turns[]`. -/
structure TurnEntry where
  turnId : Option String
  query : String
  intent : String
  orderNo : Option String
  deriving DecidableEq, Repr

/-- The `pending_clarification` dict written by the debug route. -/
structure PendingClarification where
  decision : String
  error : Option String
  missingRequiredSlots : List String
  deriving DecidableEq, Repr

/-- `SessionMemoryState` (services/memory.py): a TypedDict with all keys
optional; `none` models an absent key. -/
structure SessionState where
  slots : List (String × String)
  lastIntent : Option String
  orderCandidates : List String
  turns : List TurnEntry
  clarifyMessages : Option (List ToolMsg)
  pendingClarification : Option PendingClarification
  resolvedSlots : Option (List (String × String))
  deriving DecidableEq, Repr

/-- Python `dict[key] = value`: update in place when the key exists,
otherwise append. -/
def dictSet (m : List (String × String)) (key value : String) : List (String × String) :=
  if m.any (fun kv => kv.1 = key) then
    m.map (fun kv => if kv.1 = key then (key, value) else kv)
  else m ++ [(key, value)]

/-- Python truthiness of an optional string (`None` and `""` are falsy). -/
def truthyStr : Option String → Bool
  | none => false
  | some s => s ≠ ""

/-- The `business_facts` fields `_persist_session_memory` reads. -/
structure PersistFacts where
  orderNo : Option String
  plateNo : Option String
  cityCode : Option String
  arrearsOrderNos : Option (List String)
  deriving DecidableEq, Repr

/-- The workflow-result fields `_persist_session_memory` reads. -/
structure PersistResult where
  intent : Option String
  businessFacts : PersistFacts
  deriving DecidableEq, Repr

/-- The slot keys copied from the payload into memory. -/
def persistSlotKeys (p : Payload) : List (String × Option String) :=
  [("city_code", p.cityCode), ("lot_code", p.lotCode), ("plate_no", p.plateNo),
   ("order_no", p.orderNo), ("at_time", p.atTime)]

/-- `_persist_session_memory` (hybrid_answering.py lines 120-169): the state
written to the session store for a non-empty `session_id`.  The constructed
dict has exactly the keys `slots`, `last_intent`, `order_candidates`,
`turns`; in particular `pending_clarification` and `clarify_messages` are
never part of it. -/
def persistNewState (payload : Payload) (turnId : Option String) (result : PersistResult)
    (old : SessionState) (maxTurns : Nat) : SessionState :=
  let slots0 := (persistSlotKeys payload).foldl
    (fun acc kv => match kv.2 with
      | some v => dictSet acc kv.1 v
      | none => acc) old.slots
  let facts := result.businessFacts
  let slots1 := if truthyStr facts.orderNo then dictSet slots0 "order_no" (facts.orderNo.getD "") else slots0
  let slots2 := if truthyStr facts.plateNo then dictSet slots1 "plate_no" (facts.plateNo.getD "") else slots1
  let slots := if truthyStr facts.cityCode then dictSet slots2 "city_code" (facts.cityCode.getD "") else slots2
  let orderCandidates :=
    match facts.arrearsOrderNos with
    | some xs => xs.filter (fun x => x ≠ "")
    | none => if truthyStr facts.orderNo then [facts.orderNo.getD ""] else old.orderCandidates
  let turns0 := old.turns ++
    [{ turnId := turnId
       query := payload.query
       intent := result.intent.getD ""
       orderNo := (slots.lookup "order_no") }]
  let turns := if turns0.length > maxTurns then turns0.drop (turns0.length - maxTurns) else turns0
  { slots := slots
    lastIntent := some (result.intent.getD (old.lastIntent.getD ""))
    orderCandidates := orderCandidates
    turns := turns
    clarifyMessages := none
    pendingClarification := none
    resolvedSlots := none }

/-- The per-request result fields the debug route reads. -/
structure DebugClarifyResult where
  decision : String
  clarifyError : Option String
  resolvedSlots : List (String × Option String)
  missingRequiredSlots : List String
  messages : List ToolMsg
  deriving DecidableEq, Repr

/-- The memory write of `debug_clarify_react_route` (api/routes.py lines
296-313) for a non-empty `session_id`: it sets `clarify_messages` and
`pending_clarification` unconditionally, whatever the decision is. -/
def debugRoutePersistState (old : SessionState) (debugResult : DebugClarifyResult) : SessionState :=
  let slots := debugResult.resolvedSlots.foldl
    (fun acc kv => match kv.2 with
      | some v => dictSet acc kv.1 v
      | none => acc) old.slots
  { old with
    slots := slots
    clarifyMessages := some debugResult.messages
    pendingClarification := some
      { decision := debugResult.decision
        error := debugResult.clarifyError
        missingRequiredSlots := debugResult.missingRequiredSlots }
    resolvedSlots := some (debugResult.resolvedSlots.filterMap
      (fun kv => kv.2.map (fun v => (kv.1, v)))) }

/-! ## Billing engine (agent_parksuite_biz_api/services/billing_engine.py)

Timestamps are absolute integer seconds; timezones are fixed integer minute
offsets (`Asia/Shanghai` = +480; the engine's datetime arithmetic uses no
daylight-saving transitions for these zones in the modelled range, so a fixed
offset is faithful).  A timezone-aware `datetime` is an instant, unchanged by
`astimezone`; wall-clock fields are derived through the offset. -/

/-- `⌈a / 60⌉` on integers. -/
def ceilDiv60 (a : Int) : Int := (a + 59) / 60

/-- `time_window` of a rule segment: `"HH:MM"` bounds already converted to
minutes of day (`sh*60+sm`), plus the fixed offset of its named timezone. -/
structure TimeWindowE where
  startMin : Int
  endMin : Int
  tzOffsetMin : Int
  deriving DecidableEq, Repr, Inhabited

/-- A tier entry of a `tiered` segment (`TierPriceRule`). -/
structure TierE where
  startMinute : Int
  endMinute : Option Int
  unitPrice : ℚ
  deriving DecidableEq, Repr, Inhabited

/-- A normalized rule segment (the `model_dump` of `RuleSegment`): for typed
segments the numeric fields are always present with their schema defaults
applied, so they are plain fields here. -/
structure SegmentE where
  name : String
  stype : String
  timeWindow : Option TimeWindowE
  weekdays : Option (List Int)
  unitMinutes : Int
  unitPrice : ℚ
  freeMinutes : Nat
  maxCharge : Option ℚ
  tiers : List TierE
  deriving DecidableEq, Repr, Inhabited

/-- `_resolve_window_timezone`: the window's timezone, defaulting to
Asia/Shanghai (+480 minutes). -/
def resolveWindowTimezone (seg : SegmentE) : Int :=
  match seg.timeWindow with
  | some w => w.tzOffsetMin
  | none => 480

/-- Wall-clock seconds of an instant in a fixed-offset zone. -/
def localSeconds (t off : Int) : Int := t + off * 60

/-- `ts.hour * 60 + ts.minute` of the local wall clock. -/
def minuteOfDay (t off : Int) : Int := (localSeconds t off / 60) % 1440

/-- `ts.date()` as a day index (days since epoch in local time). -/
def localDay (t off : Int) : Int := localSeconds t off / 86400

/-- `date.isoweekday()` of a day index (epoch day 0 is a Thursday). -/
def isoWeekday (d : Int) : Int := (d + 3) % 7 + 1

/-- Absolute instant of local midnight of day `d`. -/
def dayStartAbs (d off : Int) : Int := d * 86400 - off * 60

/-- `_in_time_window` (lines 39-51). -/
def inTimeWindow (t off startM endM : Int) : Bool :=
  let current := minuteOfDay t off
  if startM = endM then true
  else if startM < endM then decide (startM ≤ current ∧ current < endM)
  else decide (current ≥ startM ∨ current < endM)

/-- `_item_matches` (lines 54-70). -/
def itemMatches (t : Int) (seg : SegmentE) : Bool :=
  let off := resolveWindowTimezone seg
  let weekdayOk :=
    match seg.weekdays with
    | some ws => ws.isEmpty || ws.contains (isoWeekday (localDay t off))
    | none => true
  if weekdayOk = false then false
  else
    match seg.timeWindow with
    | none => true
    | some w => inTimeWindow t off w.startMin w.endMin

/-- The inner fold of `_merge_intervals` over the tail of the sorted list,
carrying the current last merged interval. -/
def mergeSortedIntervals : (Int × Int) → List (Int × Int) → List (Int × Int)
  | cur, [] => [cur]
  | cur, (s, e) :: rest =>
    if s ≤ cur.2 then mergeSortedIntervals (cur.1, max cur.2 e) rest
    else cur :: mergeSortedIntervals (s, e) rest

/-- `_merge_intervals` (lines 94-105): stable sort by interval start, then
merge overlapping or touching intervals. -/
def mergeIntervals (l : List (Int × Int)) : List (Int × Int) :=
  match List.insertionSort (fun a b : Int × Int => a.1 ≤ b.1) l with
  | [] => []
  | h :: rest => mergeSortedIntervals h rest

/-- The inner sweep of `_subtract_intervals` for one interval `[cursor, endI)`
over the merged covered list; returns the collected pieces and the final
cursor (the `break`s of the source are the early returns). -/
def sweepCovered (endI : Int) : Int → List (Int × Int) → List (Int × Int) × Int
  | cursor, [] => ([], cursor)
  | cursor, (cs, ce) :: rest =>
    if ce ≤ cursor then sweepCovered endI cursor rest
    else if cs ≥ endI then ([], cursor)
    else
      let pieces := if cs > cursor then [(cursor, min cs endI)] else []
      let cursor1 := max cursor ce
      if cursor1 ≥ endI then (pieces, cursor1)
      else
        let rec1 := sweepCovered endI cursor1 rest
        (pieces ++ rec1.1, rec1.2)

/-- `_subtract_intervals` (lines 108-133). -/
def subtractIntervals (intervals covered : List (Int × Int)) : List (Int × Int) :=
  if intervals = [] then []
  else if covered = [] then intervals
  else
    let coveredMerged := mergeIntervals covered
    intervals.flatMap fun se =>
      let swept := sweepCovered se.2 se.1 coveredMerged
      swept.1 ++ (if swept.2 < se.2 then [(swept.2, se.2)] else [])

/-- `_iter_minute_points` (lines 136-150): the minute grid points
`origin + 60·k` lying in `[start, endI) ∩ [·, overallEnd)`, in order. -/
def iterMinutePoints (origin overallEnd start endI : Int) : List Int :=
  if start ≥ endI then []
  else
    let n := max 0 (ceilDiv60 (start - origin))
    let bound := min endI overallEnd
    let K := ceilDiv60 (bound - origin)
    (List.range (K - n).toNat).map (fun (i : Nat) => origin + 60 * (n + (i : Int)))

/-- The per-day local window intervals of `_build_segment_candidate_intervals`
(lines 192-203): full day, plain window, or wrapped window split in two. -/
def dayIntervalsLocal (dayStart nextDayStart : Int) (window : Option (Int × Int)) :
    List (Int × Int) :=
  match window with
  | none => [(dayStart, nextDayStart)]
  | some se =>
    if se.1 = se.2 then [(dayStart, nextDayStart)]
    else if se.1 < se.2 then [(dayStart + se.1 * 60, dayStart + se.2 * 60)]
    else [(dayStart, dayStart + se.2 * 60), (dayStart + se.1 * 60, nextDayStart)]

/-- `_build_segment_candidate_intervals` (lines 160-214). -/
def buildSegmentCandidateIntervals (seg : SegmentE) (entry exitT : Int) : List (Int × Int) :=
  let off := resolveWindowTimezone seg
  let d1 := localDay entry off
  let d2 := localDay exitT off
  let window := seg.timeWindow.map (fun w => (w.startMin, w.endMin))
  let dayList := (List.range (d2 - d1 + 1).toNat).map (fun (i : Nat) => d1 + (i : Int))
  let candidates := dayList.flatMap fun d =>
    let weekdayOk :=
      match seg.weekdays with
      | some ws => ws.isEmpty || ws.contains (isoWeekday d)
      | none => true
    if weekdayOk = false then []
    else
      let dayStart := dayStartAbs d off
      (dayIntervalsLocal dayStart (dayStart + 86400) window).filterMap fun se =>
        let cs := max se.1 entry
        let ce := min se.2 exitT
        if cs ≥ ce then none else some (cs, ce)
  mergeIntervals candidates

/-- Python `dict` increment (`m[k] = m.get(k, 0) + 1`) on an insertion-ordered
association list. -/
def bump {α : Type} [DecidableEq α] (m : List (α × Nat)) (k : α) : List (α × Nat) :=
  if m.any (fun kv => kv.1 = k) then
    m.map (fun kv => if kv.1 = k then (k, kv.2 + 1) else kv)
  else m ++ [(k, 1)]

/-- Python `dict.setdefault(k, OrderedDict())` on the outer per-segment map. -/
def setdefaultDay (m : List (Nat × List (Int × Nat))) (k : Nat) :
    List (Nat × List (Int × Nat)) :=
  if m.any (fun kv => kv.1 = k) then m else m ++ [(k, [])]

/-- Increment the day counter of segment `k` inside the outer map. -/
def bumpInner (m : List (Nat × List (Int × Nat))) (k : Nat) (d : Int) :
    List (Nat × List (Int × Nat)) :=
  m.map (fun kv => if kv.1 = k then (k, bump kv.2 d) else kv)

/-- The pair returned by the two minute-collection functions:
`segment_minutes` and `segment_day_minutes` as insertion-ordered association
lists (inner maps are the `OrderedDict`s). -/
structure CollectResult where
  segMinutes : List (Nat × Nat)
  segDayMinutes : List (Nat × List (Int × Nat))
  deriving DecidableEq, Repr

/-- The per-segment active intervals of `collect_segment_minutes_by_window`:
candidates minus the intervals covered by earlier segments, with the covered
accumulator updated exactly as in the source. -/
def activeIntervalsList : List SegmentE → Int → Int → List (Int × Int) → List (List (Int × Int))
  | [], _, _, _ => []
  | seg :: rest, entry, exitT, covered =>
    let cands := buildSegmentCandidateIntervals seg entry exitT
    let active := subtractIntervals cands covered
    let covered1 := if active = [] then covered else mergeIntervals (covered ++ active)
    active :: activeIntervalsList rest entry exitT covered1

/-- The minute points enumerated for one segment's active intervals. -/
def pointsOfIntervals (entry exitT : Int) (active : List (Int × Int)) : List Int :=
  active.flatMap fun se => iterMinutePoints entry exitT se.1 se.2

/-- The per-segment minute-point lists of the interval-based collector. -/
def windowSegmentPoints (payload : List SegmentE) (entry exitT : Int) : List (List Int) :=
  (activeIntervalsList payload entry exitT []).map (pointsOfIntervals entry exitT)

/-- `collect_segment_minutes_by_window` (lines 244-269). -/
def collectSegmentMinutesByWindow (payload : List SegmentE) (entry exitT : Int) :
    CollectResult :=
  let step := fun (st : CollectResult × List (Int × Int)) (iseg : Nat × SegmentE) =>
    let cands := buildSegmentCandidateIntervals iseg.2 entry exitT
    let active := subtractIntervals cands st.2
    if active = [] then st
    else
      let off := resolveWindowTimezone iseg.2
      let res1 : CollectResult :=
        { st.1 with segDayMinutes := setdefaultDay st.1.segDayMinutes iseg.1 }
      let res2 := (pointsOfIntervals entry exitT active).foldl
        (fun r p =>
          { segMinutes := bump r.segMinutes iseg.1
            segDayMinutes := bumpInner r.segDayMinutes iseg.1 (localDay p off) }) res1
      (res2, mergeIntervals (st.2 ++ active))
  (payload.enum.foldl step ({ segMinutes := [], segDayMinutes := [] }, [])).1

/-- The first payload segment matching an instant (the scan's inner loop). -/
def firstMatchIdx (payload : List SegmentE) (t : Int) : Option Nat :=
  payload.findIdx? (fun seg => itemMatches t seg)

/-- `_collect_segment_minutes_by_scan` (lines 217-241): the deprecated
minute-by-minute reference implementation. -/
def collectSegmentMinutesByScan (payload : List SegmentE) (entry exitT : Int) :
    CollectResult :=
  let D := (ceilDiv60 (exitT - entry)).toNat
  (List.range D).foldl
    (fun res (k : Nat) =>
      let cursor := entry + 60 * (k : Int)
      match firstMatchIdx payload cursor with
      | none => res
      | some idx =>
        let off := resolveWindowTimezone (payload.getD idx default)
        { segMinutes := bump res.segMinutes idx
          segDayMinutes := bumpInner (setdefaultDay res.segDayMinutes idx) idx
            (localDay cursor off) })
    { segMinutes := [], segDayMinutes := [] }

/-- `_compute_tiered_amount` (lines 73-87). -/
def computeTieredAmount (units : Nat) (unitMinutes : Int) (tiers : List TierE) : ℚ :=
  (List.range units).foldl
    (fun amount unitIndex =>
      let startMinute := (unitIndex : Int) * unitMinutes
      let price :=
        ((tiers.find? fun tier =>
            decide (startMinute ≥ tier.startMinute) &&
              (match tier.endMinute with
               | none => true
               | some te => decide (startMinute < te))).map
          TierE.unitPrice).getD 0
      amount + price)
    0

/-- The per-day charging fold of `simulate_fee` for a `periodic`/`tiered`
segment (lines 308-335): returns the accumulated amount and the capped flag. -/
def periodicOrTieredAmount (item : SegmentE) (dayMap : List (Int × Nat)) : ℚ × Bool :=
  let unitMinutes := max 1 item.unitMinutes
  let step := fun (st : ℚ × Int × Bool) (dayMinutes : Nat) =>
    let dayChargeable := max 0 ((dayMinutes : Int) - st.2.1)
    let remainingFree1 := max 0 (st.2.1 - (dayMinutes : Int))
    let units := (dayChargeable + unitMinutes - 1) / unitMinutes
    let dayAmount :=
      if item.stype = "periodic" then (units : ℚ) * item.unitPrice
      else if item.stype = "tiered" then computeTieredAmount units.toNat unitMinutes item.tiers
      else 0
    match item.maxCharge with
    | some cap =>
      if dayAmount ≥ cap then (st.1 + cap, remainingFree1, true)
      else (st.1 + dayAmount, remainingFree1, st.2.2)
    | none => (st.1 + dayAmount, remainingFree1, st.2.2)
  let res := (dayMap.map Prod.snd).foldl step (0, (item.freeMinutes : Int), false)
  (res.1, res.2.2)

/-- A `breakdown` entry of `simulate_fee` (`SegmentCharge`). -/
structure SegmentCharge where
  segmentName : String
  segmentType : String
  minutes : Nat
  amount : ℚ
  freeMinutes : Int
  capped : Bool
  deriving DecidableEq, Repr

/-- The dict returned by `simulate_fee`. -/
structure SimulateResult where
  durationMinutes : Int
  totalAmount : ℚ
  breakdown : List SegmentCharge
  deriving DecidableEq, Repr

/-- `simulate_fee` (lines 272-355).  The rule payload is already normalized
(`model_dump` of validated `RuleSegment`s, so `name` is always present). -/
def simulateFee (payload : List SegmentE) (entry exitT : Int) : SimulateResult :=
  if exitT ≤ entry then { durationMinutes := 0, totalAmount := 0, breakdown := [] }
  else
    let durationMinutes := (exitT - entry) / 60
    let collected := collectSegmentMinutesByWindow payload entry exitT
    let sortedSeg := List.insertionSort (fun a b : Nat × Nat => a.1 ≤ b.1) collected.segMinutes
    let step := fun (st : List SegmentCharge × ℚ) (im : Nat × Nat) =>
      let item := payload.getD im.1 default
      let amountFreeCapped :=
        if item.stype = "free" then ((0 : ℚ), (im.2 : Int), false)
        else
          let dayMap := (collected.segDayMinutes.lookup im.1).getD []
          let ac := periodicOrTieredAmount item dayMap
          (ac.1, (item.freeMinutes : Int), ac.2)
      let amount := quantizeHalfUp amountFreeCapped.1
      (st.1 ++
        [{ segmentName := item.name
           segmentType := item.stype
           minutes := im.2
           amount := amount
           freeMinutes := amountFreeCapped.2.1
           capped := amountFreeCapped.2.2 }],
       st.2 + amount)
    let folded := sortedSeg.foldl step ([], 0)
    { durationMinutes := durationMinutes
      totalAmount := quantizeHalfUp folded.2
      breakdown := folded.1 }

/-! ## Knowledge retrieval (repositories/knowledge.py `KnowledgeRepository.retrieve`,
query-embedding branch)

The relational store is modelled as a list of joined `(chunk, source)` rows;
the SQL `ORDER BY score ASC, source_id ASC, chunk_index ASC, id ASC ...
LIMIT top_k` issued by the source is modelled as a stable sort by that
lexicographic key followed by `take top_k`.  The database's cosine-distance
computation is an abstract parameter `scoreFn`. -/

/-- A `knowledge_chunks` row (embedding kept as a rational vector). -/
structure ChunkRow where
  id : Nat
  sourcePk : Nat
  scenarioId : Option String
  chunkIndex : Int
  chunkText : String
  embedding : List ℚ
  deriving DecidableEq, Repr

/-- A `knowledge_sources` row (the fields `retrieve` reads). -/
structure SourceRow where
  id : Nat
  sourceId : String
  docType : String
  sourceType : String
  title : String
  cityCode : Option String
  lotCodes : List String
  effectiveFrom : Option Int
  effectiveTo : Option Int
  isActive : Bool
  deriving DecidableEq, Repr

/-- `RetrieveRequest` (the fields the embedding branch reads). -/
structure RetrievePayload where
  query : String
  queryEmbedding : Option (List ℚ)
  topK : Nat
  docType : Option String
  sourceType : Option String
  cityCode : Option String
  lotCode : Option String
  atTime : Option Int
  sourceIds : Option (List String)
  includeInactive : Bool
  deriving DecidableEq, Repr

/-- `RetrieveResponseItem` (metadata omitted — `retrieve` only forwards it). -/
structure RetrieveItem where
  chunkId : Nat
  sourcePk : Nat
  sourceId : String
  docType : String
  sourceType : String
  title : String
  content : String
  scenarioId : Option String
  score : Option ℚ
  deriving DecidableEq, Repr

/-- The `WHERE` filters of `retrieve` (lines 130-152), applied to one joined
row.  Python truthiness gates each optional filter. -/
def rowPassesFilters (payload : RetrievePayload) (row : ChunkRow × SourceRow) : Bool :=
  (payload.includeInactive || row.2.isActive) &&
  (!(truthyStr payload.docType) || decide (row.2.docType = payload.docType.getD "")) &&
  (!(truthyStr payload.sourceType) || decide (row.2.sourceType = payload.sourceType.getD "")) &&
  (!(truthyStr payload.cityCode) || decide (row.2.cityCode = some (payload.cityCode.getD ""))) &&
  (!(truthyStr payload.lotCode) || row.2.lotCodes.contains (payload.lotCode.getD "")) &&
  ((match payload.sourceIds with
    | none => true
    | some ids => ids.isEmpty || ids.contains row.2.sourceId)) &&
  ((match payload.atTime with
    | none => true
    | some t =>
      (match row.2.effectiveFrom with
       | none => true
       | some ef => decide (ef ≤ t)) &&
      (match row.2.effectiveTo with
       | none => true
       | some et => decide (et > t))))

/-- The lexicographic sort key of the `ORDER BY` clause:
`(score, source_id, chunk_index, id)`. -/
abbrev RetrieveKey := ℚ ×ₗ (String ×ₗ (Int ×ₗ Nat))

/-- The sort key of one scored row. -/
def retrieveKey (row : ChunkRow × SourceRow × ℚ) : RetrieveKey :=
  toLex (row.2.2, toLex (row.2.1.sourceId, toLex (row.1.chunkIndex, row.1.id)))

/-- Row-to-item mapping of `retrieve` (lines 181-195). -/
def toRetrieveItem (row : ChunkRow × SourceRow × ℚ) : RetrieveItem :=
  { chunkId := row.1.id
    sourcePk := row.1.sourcePk
    sourceId := row.2.1.sourceId
    docType := row.2.1.docType
    sourceType := row.2.1.sourceType
    title := row.2.1.title
    content := row.1.chunkText
    scenarioId := row.1.scenarioId
    score := some row.2.2 }

/-- The `query_embedding is not None` branch of `KnowledgeRepository.retrieve`
(lines 115-161, 181-195): dimension validation, filtering, scoring each row
with the database's cosine distance (`scoreFn`), ordering by the
lexicographic key, limiting to `top_k`.  `Except.error` models the raised
`ValueError`. -/
def retrieveEmbedding (embeddingDim : Nat) (scoreFn : List ℚ → List ℚ → ℚ)
    (table : List (ChunkRow × SourceRow)) (payload : RetrievePayload) :
    Except String (List RetrieveItem) :=
  match payload.queryEmbedding with
  | none => Except.error "retrieveEmbedding models only the query_embedding branch"
  | some emb =>
    if emb.length ≠ embeddingDim then
      Except.error "query_embedding dim mismatch"
    else
      let scored := (table.filter (rowPassesFilters payload)).map
        (fun row => (row.1, row.2, scoreFn emb row.1.embedding))
      let sorted := List.insertionSort
        (fun a b : ChunkRow × SourceRow × ℚ => retrieveKey a ≤ retrieveKey b) scored
      Except.ok ((sorted.take payload.topK).map toRetrieveItem)

/-! ## Statement-level views of the billing collectors -/

/-- Membership of an instant in an interval list (`[start, end)` pieces). -/
def memI (p : Int) (l : List (Int × Int)) : Prop :=
  ∃ se ∈ l, se.1 ≤ p ∧ p < se.2

/-- The minute grid scanned by `_collect_segment_minutes_by_scan`
(`cursor = entry_time + k minutes` while `cursor < exit_time`). -/
def gridPoints (entry exitT : Int) : List Int :=
  (List.range ((ceilDiv60 (exitT - entry)).toNat)).map (fun (k : Nat) => entry + 60 * (k : Int))

/-- The grid points the scan attributes to segment `idx` (its first-match
minutes), in scan order. -/
def scanSegmentPoints (payload : List SegmentE) (entry exitT : Int) (idx : Nat) : List Int :=
  (gridPoints entry exitT).filter (fun p => firstMatchIdx payload p = some idx)

/-- Equality of two collector results as Python `dict` equality: same key
sets and same values (the inner `OrderedDict`s compared with their order). -/
def collectEquiv (a b : CollectResult) : Prop :=
  (∀ idx, a.segMinutes.lookup idx = b.segMinutes.lookup idx) ∧
  (∀ idx, a.segDayMinutes.lookup idx = b.segDayMinutes.lookup idx)

/-- Schema-level sanity of the `"HH:MM"` window bounds (a validated payload
has them inside one day). -/
def wellFormedWindows (payload : List SegmentE) : Prop :=
  ∀ seg ∈ payload, ∀ w, seg.timeWindow = some w →
    0 ≤ w.startMin ∧ w.startMin ≤ 1440 ∧ 0 ≤ w.endMin ∧ w.endMin ≤ 1440

/-- Closed form of `n` successive `bump`s at one key (proof helper). -/
def addCount {α : Type} [DecidableEq α] (m : List (α × Nat)) (k : α) (n : Nat) :
    List (α × Nat) :=
  if n = 0 then m
  else if m.any (fun kv => kv.1 = k) then
    m.map (fun kv => if kv.1 = k then (k, kv.2 + n) else kv)
  else m ++ [(k, n)]

/-- The inner per-day `OrderedDict` accumulated over a point list
(proof helper; this is the inner loop of both collectors). -/
def dayFoldList (off : Int) (m : List (Int × Nat)) (pts : List Int) : List (Int × Nat) :=
  pts.foldl (fun acc p => bump acc (localDay p off)) m

/-- The clamped per-local-date charges of one `periodic`/`tiered` segment:
the `day_amount` values (after the `max_charge` clamp) produced by the day
loop of `simulate_fee`, in day order, with the same free-minute carry. -/
def segmentDayAmounts (item : SegmentE) (dayMap : List (Int × Nat)) : List ℚ :=
  let unitMinutes := max 1 item.unitMinutes
  let step := fun (st : List ℚ × Int) (dayMinutes : Nat) =>
    let dayChargeable := max 0 ((dayMinutes : Int) - st.2)
    let remainingFree1 := max 0 (st.2 - (dayMinutes : Int))
    let units := (dayChargeable + unitMinutes - 1) / unitMinutes
    let dayAmount :=
      if item.stype = "periodic" then (units : ℚ) * item.unitPrice
      else if item.stype = "tiered" then computeTieredAmount units.toNat unitMinutes item.tiers
      else 0
    let clamped :=
      match item.maxCharge with
      | some cap => if dayAmount ≥ cap then cap else dayAmount
      | none => dayAmount
    (st.1 ++ [clamped], remainingFree1)
  ((dayMap.map Prod.snd).foldl step ([], (item.freeMinutes : Int))).1

/-- The rule segment of acceptance scenario 6 ("cross-day cap"): periodic,
window 08:00-20:00 Asia/Shanghai, 30-minute units at 2, no free minutes,
per-day cap 20. -/
def c8Segment : SegmentE :=
  { name := "all_day_periodic", stype := "periodic"
    timeWindow := some { startMin := 480, endMin := 1200, tzOffsetMin := 480 }
    weekdays := none, unitMinutes := 30, unitPrice := 2, freeMinutes := 0
    maxCharge := some 20, tiers := [] }

/-- Reference recursion for `collect_segment_minutes_by_window` with the
per-point fold replaced by its closed form (proof helper). -/
def collectSpec (entry exitT : Int) :
    List (Nat × SegmentE) → CollectResult → List (Int × Int) → CollectResult
  | [], res, _ => res
  | iseg :: rest, res, covered =>
    let active := subtractIntervals (buildSegmentCandidateIntervals iseg.2 entry exitT) covered
    if active = [] then collectSpec entry exitT rest res covered
    else
      let off := resolveWindowTimezone iseg.2
      let pts := pointsOfIntervals entry exitT active
      collectSpec entry exitT rest
        { segMinutes := addCount res.segMinutes iseg.1 pts.length
          segDayMinutes := pts.foldl (fun dm p => bumpInner dm iseg.1 (localDay p off))
            (setdefaultDay res.segDayMinutes iseg.1) }
        (mergeIntervals (covered ++ active))


/-- The scan's per-segment minute points, computed segment-recursively: each
segment keeps the grid points it matches and that no earlier segment (tracked
by the accumulated `prior` predicate) has claimed (proof helper; this is the
first-match rule of `_collect_segment_minutes_by_scan` read per segment). -/
def scanPointsList (entry exitT : Int) : (Int → Bool) → List SegmentE → List (List Int)
  | _, [] => []
  | prior, seg :: rest =>
    (gridPoints entry exitT).filter (fun p => itemMatches p seg && !prior p) ::
      scanPointsList entry exitT (fun p => prior p || itemMatches p seg) rest

/-- Structural invariant of the `covered` accumulator of
`collect_segment_minutes_by_window` when the entry instant is minute-aligned:
intervals are nonempty, minute-aligned at the left end, bounded and closed off
by the exit instant at the right end, and pairwise separated (proof helper). -/
def coveredInv (exitT : Int) (covered : List (Int × Int)) : Prop :=
  (∀ se ∈ covered, se.1 < se.2 ∧ 60 ∣ se.1 ∧ (60 ∣ se.2 ∨ se.2 = exitT) ∧ se.2 ≤ exitT) ∧
    List.Pairwise (fun a b : Int × Int => a.2 < b.1) covered

/-- The per-minute update of `_collect_segment_minutes_by_scan` as a function
of the minute instant (proof helper; the loop body of the scan). -/
def scanStep (payload : List SegmentE) (res : CollectResult) (p : Int) : CollectResult :=
  match firstMatchIdx payload p with
  | none => res
  | some idx =>
    { segMinutes := bump res.segMinutes idx
      segDayMinutes := bumpInner (setdefaultDay res.segDayMinutes idx) idx
        (localDay p (resolveWindowTimezone (payload.getD idx default))) }

/-- A rule segment whose window covers a single wall-clock minute (00:01 to
00:02, UTC offset 0): the divergence witness between the interval collector
and the deprecated minute scan at a sub-minute-aligned entry instant. -/
def c10Segment : SegmentE :=
  { name := "one_minute_window", stype := "periodic"
    timeWindow := some { startMin := 1, endMin := 2, tzOffsetMin := 0 }
    weekdays := none, unitMinutes := 1, unitPrice := 1, freeMinutes := 0
    maxCharge := none, tiers := [] }

/-! # Theorems -/

/-! ## Association-list counting lemmas -/

section AssocLemmas

variable {α : Type} [DecidableEq α]

theorem any_key_map_update (m : List (α × Nat)) (k : α) (n : ℕ) :
    (m.map (fun kv => if kv.1 = k then (k, kv.2 + n) else kv)).any
        (fun kv => kv.1 = k) =
      m.any (fun kv => kv.1 = k) := by
  induction m with
  | nil => rfl
  | cons kv t ih =>
    by_cases h : kv.1 = k <;> simp [h, ih]

theorem map_update_id_of_not_any (m : List (α × Nat)) (k : α) (n : ℕ)
    (h : m.any (fun kv => kv.1 = k) = false) :
    m.map (fun kv => if kv.1 = k then (k, kv.2 + n) else kv) = m := by
  induction m with
  | nil => rfl
  | cons kv t ih =>
    simp only [List.any_cons, Bool.or_eq_false_iff] at h
    have hk : ¬ kv.1 = k := by simpa using h.1
    simp only [List.map_cons, if_neg hk, ih h.2]

theorem addCount_addCount (m : List (α × Nat)) (k : α) (a b : ℕ) :
    addCount (addCount m k a) k b = addCount m k (a + b) := by
  by_cases ha : a = 0
  · subst ha; simp [addCount]
  · by_cases hb : b = 0
    · subst hb; simp [addCount]
    · have hab : a + b ≠ 0 := by omega
      cases hA : m.any (fun kv => kv.1 = k) with
      | true =>
        simp only [addCount, if_neg ha, if_neg hb, if_neg hab, hA, if_true,
          any_key_map_update, List.map_map]
        refine congrArg₂ _ ?_ rfl
        funext kv
        by_cases h : kv.1 = k
        · simp [Function.comp, h, Nat.add_assoc]
        · simp [Function.comp, h]
      | false =>
        simp only [addCount, if_neg ha, if_neg hb, if_neg hab, hA,
          Bool.false_eq_true, if_false]
        have hA2 : (m ++ [(k, a)]).any (fun kv => kv.1 = k) = true := by
          simp
        simp only [hA2, if_true, List.map_append]
        rw [map_update_id_of_not_any m k b hA]
        simp [Nat.add_comm]

theorem bump_eq_addCount_one (m : List (α × Nat)) (k : α) :
    bump m k = addCount m k 1 := by
  cases hA : m.any (fun kv => kv.1 = k) <;> simp [bump, addCount, hA]

theorem foldl_bump_const {β : Type} (l : List β) (m : List (α × Nat)) (k : α) :
    l.foldl (fun acc _ => bump acc k) m = addCount m k l.length := by
  induction l generalizing m with
  | nil => simp [addCount]
  | cons b t ih =>
    rw [List.foldl_cons, ih (bump m k), bump_eq_addCount_one, addCount_addCount]
    simp [Nat.add_comm]

end AssocLemmas

/-! ## Minute-grid lemmas -/

theorem ceilDiv60_le_iff (a j : ℤ) : ceilDiv60 a ≤ j ↔ a ≤ 60 * j := by
  unfold ceilDiv60
  rw [← Int.lt_add_one_iff, Int.ediv_lt_iff_lt_mul (by norm_num)]
  omega

theorem lt_ceilDiv60_iff (a j : ℤ) : j < ceilDiv60 a ↔ 60 * j < a := by
  unfold ceilDiv60
  rw [Int.lt_iff_add_one_le, Int.le_ediv_iff_mul_le (by norm_num)]
  omega

theorem length_iterMinutePoints (o oe s e : Int) :
    (iterMinutePoints o oe s e).length =
      if s ≥ e then 0
      else (ceilDiv60 (min e oe - o) - max 0 (ceilDiv60 (s - o))).toNat := by
  unfold iterMinutePoints
  split
  · rfl
  · simp only [List.length_map, List.length_range]

theorem min_sub_bound {e oe o j : Int} (h : 60 * j < min e oe - o) :
    o + 60 * j < e ∧ o + 60 * j < oe := by
  rcases le_total e oe with hm | hm
  · rw [min_eq_left hm] at h; omega
  · rw [min_eq_right hm] at h; omega

theorem mem_iterMinutePoints {o oe s e p : Int} :
    p ∈ iterMinutePoints o oe s e ↔
      s < e ∧ ∃ j : ℤ, 0 ≤ j ∧ p = o + 60 * j ∧ s ≤ p ∧ p < e ∧ p < oe := by
  unfold iterMinutePoints
  split
  · rename_i hse
    simp only [List.not_mem_nil, false_iff, not_and]
    intro h
    omega
  · rename_i hse
    have hse2 : s < e := by omega
    simp only [List.mem_map, List.mem_range, hse2, true_and]
    constructor
    · rintro ⟨i, hi, rfl⟩
      set N := max 0 (ceilDiv60 (s - o)) with hN
      have hN0 : 0 ≤ N := le_max_left 0 _
      have hNc : ceilDiv60 (s - o) ≤ N := le_max_right _ _
      have hiz : (i : ℤ) < ceilDiv60 (min e oe - o) - N := by omega
      have h1 : s - o ≤ 60 * (N + (i : ℤ)) :=
        (ceilDiv60_le_iff (s - o) (N + (i : ℤ))).mp (by omega)
      have h2 : 60 * (N + (i : ℤ)) < min e oe - o :=
        (lt_ceilDiv60_iff (min e oe - o) (N + (i : ℤ))).mp (by omega)
      obtain ⟨h2a, h2b⟩ := min_sub_bound h2
      exact ⟨N + (i : ℤ), by omega, rfl, by omega, h2a, h2b⟩
    · rintro ⟨j, hj0, rfl, hjs, hje, hjoe⟩
      set N := max 0 (ceilDiv60 (s - o)) with hN
      have hn : N ≤ j := by
        rcases le_total 0 (ceilDiv60 (s - o)) with h | h
        · rw [hN, max_eq_right h, ceilDiv60_le_iff]; omega
        · rw [hN, max_eq_left h]; omega
      have hK : j < ceilDiv60 (min e oe - o) := by
        rw [lt_ceilDiv60_iff]
        rcases le_total e oe with hm | hm
        · rw [min_eq_left hm]; omega
        · rw [min_eq_right hm]; omega
      refine ⟨(j - N).toNat, by omega, ?_⟩
      have hcast : (((j - N).toNat : ℤ)) = j - N := by omega
      rw [hcast]
      ring

theorem pairwise_lt_iterMinutePoints (o oe s e : Int) :
    (iterMinutePoints o oe s e).Pairwise (· < ·) := by
  unfold iterMinutePoints
  split
  · simp
  · exact List.Pairwise.map _ (fun i j hij => by omega) (List.pairwise_lt_range _)

/-! ## Interval membership and structure lemmas -/

instance : IsTotal (Int × Int) (fun a b : Int × Int => a.1 ≤ b.1) :=
  ⟨fun a b => le_total a.1 b.1⟩

instance : IsTrans (Int × Int) (fun a b : Int × Int => a.1 ≤ b.1) :=
  ⟨fun _ _ _ hab hbc => le_trans hab hbc⟩

theorem memI_nil (p : Int) : ¬ memI p [] := by simp [memI]

theorem memI_cons {p : Int} {se : Int × Int} {l : List (Int × Int)} :
    memI p (se :: l) ↔ (se.1 ≤ p ∧ p < se.2) ∨ memI p l := by
  simp [memI, List.mem_cons, or_and_right, exists_or]

theorem memI_append {p : Int} {a b : List (Int × Int)} :
    memI p (a ++ b) ↔ memI p a ∨ memI p b := by
  simp [memI, List.mem_append, or_and_right, exists_or]

theorem memI_singleton {p : Int} {se : Int × Int} :
    memI p [se] ↔ se.1 ≤ p ∧ p < se.2 := by
  simp [memI]

theorem memI_of_perm {p : Int} {a b : List (Int × Int)} (h : a.Perm b) :
    memI p a ↔ memI p b := by
  unfold memI
  constructor
  · rintro ⟨se, hse, hp⟩
    exact ⟨se, h.mem_iff.mp hse, hp⟩
  · rintro ⟨se, hse, hp⟩
    exact ⟨se, h.mem_iff.mpr hse, hp⟩

theorem memI_mergeSortedIntervals (p : Int) :
    ∀ (l : List (Int × Int)) (cur : Int × Int),
      List.Sorted (fun a b : Int × Int => a.1 ≤ b.1) (cur :: l) →
      (memI p (mergeSortedIntervals cur l) ↔ (cur.1 ≤ p ∧ p < cur.2) ∨ memI p l)
  | [], cur, _ => by simp [mergeSortedIntervals, memI_singleton, memI_nil]
  | (s, e) :: rest, cur, hsorted => by
    have hcs : cur.1 ≤ s := (List.sorted_cons.mp hsorted).1 (s, e) (List.mem_cons_self _ _)
    have htail : List.Sorted (fun a b : Int × Int => a.1 ≤ b.1) ((s, e) :: rest) :=
      (List.sorted_cons.mp hsorted).2
    unfold mergeSortedIntervals
    by_cases hme : s ≤ cur.2
    · rw [if_pos hme]
      have hsorted2 : List.Sorted (fun a b : Int × Int => a.1 ≤ b.1)
          ((cur.1, max cur.2 e) :: rest) := by
        rw [List.sorted_cons]
        refine ⟨fun b hb => ?_, (List.sorted_cons.mp htail).2⟩
        exact le_trans hcs ((List.sorted_cons.mp htail).1 b hb)
      rw [memI_mergeSortedIntervals p rest (cur.1, max cur.2 e) hsorted2, memI_cons]
      constructor
      · rintro (⟨h1, h2⟩ | h)
        · rcases lt_or_le p cur.2 with h3 | h3
          · exact Or.inl ⟨h1, h3⟩
          · refine Or.inr (Or.inl ⟨?_, ?_⟩) <;> omega
        · exact Or.inr (Or.inr h)
      · rintro (⟨h1, h2⟩ | ⟨h1, h2⟩ | h)
        · exact Or.inl ⟨h1, by omega⟩
        · exact Or.inl ⟨by omega, by omega⟩
        · exact Or.inr h
    · rw [if_neg hme, memI_cons,
        memI_mergeSortedIntervals p rest (s, e) htail, memI_cons]

theorem memI_mergeIntervals (p : Int) (l : List (Int × Int)) :
    memI p (mergeIntervals l) ↔ memI p l := by
  unfold mergeIntervals
  have hperm := List.perm_insertionSort (fun a b : Int × Int => a.1 ≤ b.1) l
  have hsorted := List.sorted_insertionSort (fun a b : Int × Int => a.1 ≤ b.1) l
  rcases hs : List.insertionSort (fun a b : Int × Int => a.1 ≤ b.1) l with _ | ⟨h, rest⟩
  · rw [hs] at hperm
    exact memI_of_perm hperm
  · rw [hs] at hperm hsorted
    rw [memI_mergeSortedIntervals p rest h hsorted, ← memI_of_perm hperm, memI_cons]

theorem mergeSortedIntervals_struct (p : Int) :
    ∀ (l : List (Int × Int)) (cur : Int × Int),
      List.Sorted (fun a b : Int × Int => a.1 ≤ b.1) (cur :: l) →
      (∀ se ∈ cur :: l, se.1 < se.2) →
      (∀ se ∈ mergeSortedIntervals cur l, se.1 < se.2 ∧ cur.1 ≤ se.1) ∧
        List.Pairwise (fun a b : Int × Int => a.2 < b.1) (mergeSortedIntervals cur l)
  | [], cur, _, hne => by
    refine ⟨fun se hse => ?_, by simp [mergeSortedIntervals]⟩
    simp only [mergeSortedIntervals, List.mem_singleton] at hse
    rw [hse]
    exact ⟨hne cur (List.mem_cons_self _ _), le_refl _⟩
  | (s, e) :: rest, cur, hsorted, hne => by
    have hcs : cur.1 ≤ s := (List.sorted_cons.mp hsorted).1 (s, e) (List.mem_cons_self _ _)
    have htail : List.Sorted (fun a b : Int × Int => a.1 ≤ b.1) ((s, e) :: rest) :=
      (List.sorted_cons.mp hsorted).2
    unfold mergeSortedIntervals
    by_cases hme : s ≤ cur.2
    · rw [if_pos hme]
      have hsorted2 : List.Sorted (fun a b : Int × Int => a.1 ≤ b.1)
          ((cur.1, max cur.2 e) :: rest) := by
        rw [List.sorted_cons]
        refine ⟨fun b hb => ?_, (List.sorted_cons.mp htail).2⟩
        exact le_trans hcs ((List.sorted_cons.mp htail).1 b hb)
      have hne2 : ∀ se ∈ (cur.1, max cur.2 e) :: rest, se.1 < se.2 := by
        intro se hse
        rcases List.mem_cons.mp hse with h | hse
        · have hc := hne cur (List.mem_cons_self _ _)
          rw [h]
          simp only []
          omega
        · exact hne se (List.mem_cons_of_mem _ (List.mem_cons_of_mem _ hse))
      exact mergeSortedIntervals_struct p rest (cur.1, max cur.2 e) hsorted2 hne2
    · rw [if_neg hme]
      have hne2 : ∀ se ∈ (s, e) :: rest, se.1 < se.2 := by
        intro se hse
        exact hne se (List.mem_cons_of_mem _ hse)
      obtain ⟨ih1, ih2⟩ := mergeSortedIntervals_struct p rest (s, e) htail hne2
      constructor
      · intro se hse
        rcases List.mem_cons.mp hse with h | hse
        · rw [h]
          exact ⟨hne cur (List.mem_cons_self _ _), le_refl _⟩
        · obtain ⟨h1, h2⟩ := ih1 se hse
          exact ⟨h1, le_trans hcs h2⟩
      · rw [List.pairwise_cons]
        refine ⟨fun b hb => ?_, ih2⟩
        have := (ih1 b hb).2
        omega

theorem mergeIntervals_struct (l : List (Int × Int)) (hne : ∀ se ∈ l, se.1 < se.2) :
    (∀ se ∈ mergeIntervals l, se.1 < se.2) ∧
      List.Pairwise (fun a b : Int × Int => a.2 < b.1) (mergeIntervals l) := by
  unfold mergeIntervals
  have hperm := List.perm_insertionSort (fun a b : Int × Int => a.1 ≤ b.1) l
  have hsorted := List.sorted_insertionSort (fun a b : Int × Int => a.1 ≤ b.1) l
  rcases hs : List.insertionSort (fun a b : Int × Int => a.1 ≤ b.1) l with _ | ⟨h, rest⟩
  · simp
  · rw [hs] at hperm hsorted
    have hne2 : ∀ se ∈ h :: rest, se.1 < se.2 := fun se hse => hne se (hperm.mem_iff.mp hse)
    obtain ⟨h1, h2⟩ := mergeSortedIntervals_struct 0 rest h hsorted hne2
    exact ⟨fun se hse => (h1 se hse).1, h2⟩

/-! ## Day-fold and collect-fold lemmas -/

theorem localDay_eq_of_bounds {p off d : ℤ} (h1 : d * 86400 ≤ p + off * 60)
    (h2 : p + off * 60 < (d + 1) * 86400) : localDay p off = d := by
  unfold localDay localSeconds
  omega

theorem dayFoldList_append (off : Int) (m : List (Int × Nat)) (a b : List Int) :
    dayFoldList off m (a ++ b) = dayFoldList off (dayFoldList off m a) b := by
  simp [dayFoldList, List.foldl_append]

theorem dayFoldList_const_day (off : Int) (d : Int) (pts : List Int) (m : List (Int × Nat))
    (h : ∀ p ∈ pts, localDay p off = d) :
    dayFoldList off m pts = addCount m d pts.length := by
  induction pts generalizing m with
  | nil => simp [dayFoldList, addCount]
  | cons p t ih =>
    have hd : localDay p off = d := h p (List.mem_cons_self _ _)
    have ht : ∀ q ∈ t, localDay q off = d := fun q hq => h q (List.mem_cons_of_mem _ hq)
    simp only [dayFoldList, List.foldl_cons, hd, List.length_cons]
    have hfold : List.foldl (fun acc p => bump acc (localDay p off)) (bump m d) t
        = dayFoldList off (bump m d) t := rfl
    rw [hfold, ih (bump m d) ht, bump_eq_addCount_one, addCount_addCount]
    simp [Nat.add_comm]

theorem collect_points_foldl (idx : Nat) (off : Int) (pts : List Int) (res : CollectResult) :
    pts.foldl
      (fun r p =>
        { segMinutes := bump r.segMinutes idx
          segDayMinutes := bumpInner r.segDayMinutes idx (localDay p off) }) res =
    { segMinutes := addCount res.segMinutes idx pts.length
      segDayMinutes :=
        pts.foldl (fun dm p => bumpInner dm idx (localDay p off)) res.segDayMinutes } := by
  induction pts generalizing res with
  | nil => simp [addCount]
  | cons p t ih =>
    simp only [List.foldl_cons, ih, List.length_cons]
    congr 1
    rw [bump_eq_addCount_one, addCount_addCount]
    simp [Nat.add_comm]

theorem foldl_bumpInner_single (idx : Nat) (off : Int) (l : List (Int × Nat)) (pts : List Int) :
    pts.foldl (fun dm p => bumpInner dm idx (localDay p off)) [(idx, l)] =
      [(idx, dayFoldList off l pts)] := by
  induction pts generalizing l with
  | nil => simp [dayFoldList]
  | cons p t ih =>
    have hhead : bumpInner [(idx, l)] idx (localDay p off)
        = [(idx, bump l (localDay p off))] := by
      simp [bumpInner]
    rw [List.foldl_cons, hhead, ih (bump l (localDay p off))]
    simp [dayFoldList]

theorem collect_window_eq_spec_go (entry exitT : Int) (segs : List (Nat × SegmentE))
    (res : CollectResult) (covered : List (Int × Int)) :
    (segs.foldl
      (fun (st : CollectResult × List (Int × Int)) (iseg : Nat × SegmentE) =>
        let cands := buildSegmentCandidateIntervals iseg.2 entry exitT
        let active := subtractIntervals cands st.2
        if active = [] then st
        else
          let off := resolveWindowTimezone iseg.2
          let res1 : CollectResult :=
            { st.1 with segDayMinutes := setdefaultDay st.1.segDayMinutes iseg.1 }
          let res2 := (pointsOfIntervals entry exitT active).foldl
            (fun r p =>
              { segMinutes := bump r.segMinutes iseg.1
                segDayMinutes := bumpInner r.segDayMinutes iseg.1 (localDay p off) }) res1
          (res2, mergeIntervals (st.2 ++ active))) (res, covered)).1 =
      collectSpec entry exitT segs res covered := by
  induction segs generalizing res covered with
  | nil => rfl
  | cons iseg rest ih =>
    simp only [List.foldl_cons, collectSpec]
    by_cases hact :
        subtractIntervals (buildSegmentCandidateIntervals iseg.2 entry exitT) covered = []
    · simp only [hact, if_pos rfl]
      exact ih res covered
    · simp only [if_neg hact]
      rw [collect_points_foldl]
      exact ih _ _

theorem collect_window_eq_spec (payload : List SegmentE) (entry exitT : Int) :
    collectSegmentMinutesByWindow payload entry exitT =
      collectSpec entry exitT payload.enum { segMinutes := [], segDayMinutes := [] } [] := by
  unfold collectSegmentMinutesByWindow
  exact collect_window_eq_spec_go entry exitT payload.enum _ []

/-- C5: for every parse result with a known (valid) intent and every hydrate
result with no missing required slots, `react_clarify_gate_async` returns
`continue_business` with no clarify reason or error, and the ReAct clarify
agent is never invoked (the invoked flag is `false`, for every possible agent
outcome). -/
theorem gate_continue_without_react
    (parseIntent : Option String) (i : String) (hydratePayload : Payload)
    (hydrateMissing : List String) (agentOutcome : AgentOutcome)
    (hIntent : parseIntent = some i) (hValid : i ∈ validIntents)
    (hMissing : hydrateMissing = []) :
    reactClarifyGateAsync parseIntent hydratePayload hydrateMissing agentOutcome =
      Except.ok
        ({ decision := "continue_business"
           payload := hydratePayload
           clarifyReason := none
           clarifyError := none
           trace := ["react_clarify_gate_async:pass"]
           clarifyMessages := none }, false) := by
  subst hIntent; subst hMissing
  simp [reactClarifyGateAsync, shouldEnterReact]

/-- Witness for `gate_continue_without_react` at a concrete input. -/
theorem gate_continue_without_react_witness :
    (some "fee_verify" : Option String) = some "fee_verify" ∧
    "fee_verify" ∈ validIntents ∧ ([] : List String) = [] ∧
    reactClarifyGateAsync (some "fee_verify")
      (Payload.mk "核验订单 SCN-020" (some "fee_verify") none none none (some "SCN-020") none)
      [] (Except.error ()) =
      Except.ok
        (GateResultE.mk "continue_business"
          (Payload.mk "核验订单 SCN-020" (some "fee_verify") none none none (some "SCN-020") none)
          none none ["react_clarify_gate_async:pass"] none, false) :=
  ⟨rfl, by decide, rfl,
    gate_continue_without_react (some "fee_verify") "fee_verify" _ [] (Except.error ())
      rfl (by decide) rfl⟩

/-- C6: for every parse result with a known intent and a hydrate result with
missing required slots, the gate returns `clarify_short_circuit` without
invoking the agent, with error `missing_order_no` when `order_no` is among
the missing slots, else `missing_plate_no` when `plate_no` is, else the
generic `missing_required_slots`. -/
theorem gate_short_circuit_on_missing_slots
    (parseIntent : Option String) (i : String) (hydratePayload : Payload)
    (hydrateMissing : List String) (agentOutcome : AgentOutcome)
    (hIntent : parseIntent = some i) (hMissing : hydrateMissing ≠ []) :
    reactClarifyGateAsync parseIntent hydratePayload hydrateMissing agentOutcome =
      Except.ok
        ({ decision := "clarify_short_circuit"
           payload := hydratePayload
           clarifyReason := some
             (if "order_no" ∈ hydrateMissing then "请提供要核验的订单号（order_no，例如 SCN-020）。"
              else if "plate_no" ∈ hydrateMissing then "请提供要查询欠费的车牌号（plate_no，例如 沪A12345）。"
              else "请补充必要信息后继续。")
           clarifyError := some
             (if "order_no" ∈ hydrateMissing then "missing_order_no"
              else if "plate_no" ∈ hydrateMissing then "missing_plate_no"
              else "missing_required_slots")
           trace := ["react_clarify_gate_async:need_react:missing_required_slots",
             (if "order_no" ∈ hydrateMissing then
                "react_clarify_gate_async:short_circuit:missing_order_no"
              else if "plate_no" ∈ hydrateMissing then
                "react_clarify_gate_async:short_circuit:missing_plate_no"
              else "react_clarify_gate_async:short_circuit:missing_required_slots")]
           clarifyMessages := none }, false) := by
  subst hIntent
  by_cases hOrder : "order_no" ∈ hydrateMissing
  · simp [reactClarifyGateAsync, shouldEnterReact, shortCircuitIfPossible, hMissing, hOrder]
  · by_cases hPlate : "plate_no" ∈ hydrateMissing
    · simp [reactClarifyGateAsync, shouldEnterReact, shortCircuitIfPossible, hMissing,
        hOrder, hPlate]
    · simp [reactClarifyGateAsync, shouldEnterReact, shortCircuitIfPossible, hMissing,
        hOrder, hPlate]

/-- Witness for `gate_short_circuit_on_missing_slots` at a concrete input. -/
theorem gate_short_circuit_on_missing_slots_witness :
    (some "fee_verify" : Option String) = some "fee_verify" ∧
    (["order_no"] : List String) ≠ [] ∧
    reactClarifyGateAsync (some "fee_verify")
      (Payload.mk "这笔订单帮我核验下" (some "fee_verify") none none none none none)
      ["order_no"] (Except.error ()) =
      Except.ok
        ({ decision := "clarify_short_circuit"
           payload := Payload.mk "这笔订单帮我核验下" (some "fee_verify") none none none none none
           clarifyReason := some
             (if "order_no" ∈ (["order_no"] : List String) then
                "请提供要核验的订单号（order_no，例如 SCN-020）。"
              else if "plate_no" ∈ (["order_no"] : List String) then
                "请提供要查询欠费的车牌号（plate_no，例如 沪A12345）。"
              else "请补充必要信息后继续。")
           clarifyError := some
             (if "order_no" ∈ (["order_no"] : List String) then "missing_order_no"
              else if "plate_no" ∈ (["order_no"] : List String) then "missing_plate_no"
              else "missing_required_slots")
           trace := ["react_clarify_gate_async:need_react:missing_required_slots",
             (if "order_no" ∈ (["order_no"] : List String) then
                "react_clarify_gate_async:short_circuit:missing_order_no"
              else if "plate_no" ∈ (["order_no"] : List String) then
                "react_clarify_gate_async:short_circuit:missing_plate_no"
              else "react_clarify_gate_async:short_circuit:missing_required_slots")]
           clarifyMessages := none }, false) :=
  ⟨rfl, by decide,
    gate_short_circuit_on_missing_slots (some "fee_verify") "fee_verify" _ ["order_no"]
      (Except.error ()) rfl (by decide)⟩

/-- C1 (code evaluation): on a ReAct result with decision `continue_business`,
`resolved_intent = None` and billing-rule tool-hit evidence in its trace
(which `_invoke_react_once` records whenever the messages contain a
`query_billing_rules_by_params` hit), `_normalize_react_result` with an
unknown parsed intent returns `continue_business` with no error — not the
`clarify_react`/`missing_intent` the specification requires. -/
theorem normalize_react_missing_intent_code_eval :
    (ClarifyResultE.decision
      { decision := "continue_business", clarifyQuestion := none,
        resolvedSlots := [("lot_code", some "SCN-LOT-B")],
        slotUpdates := [("lot_code", some "SCN-LOT-B")],
        resolvedIntent := none, routeTarget := none, intentEvidence := [],
        missingRequiredSlots := [],
        trace := ["clarify_react:agent:finish_clarify",
          "react_clarify_gate_async:tool_hit:query_billing_rules_by_params"],
        messages := [] } = "continue_business") ∧
    (ClarifyResultE.resolvedIntent
      { decision := "continue_business", clarifyQuestion := none,
        resolvedSlots := [("lot_code", some "SCN-LOT-B")],
        slotUpdates := [("lot_code", some "SCN-LOT-B")],
        resolvedIntent := none, routeTarget := none, intentEvidence := [],
        missingRequiredSlots := [],
        trace := ["clarify_react:agent:finish_clarify",
          "react_clarify_gate_async:tool_hit:query_billing_rules_by_params"],
        messages := [] } = none) ∧
    ((normalizeReactResult none
      { query := "编码是 SCN-LOT-B，帮我看下", intentHint := none, cityCode := none,
        lotCode := none, plateNo := none, orderNo := none, atTime := none }
      []
      { decision := "continue_business", clarifyQuestion := none,
        resolvedSlots := [("lot_code", some "SCN-LOT-B")],
        slotUpdates := [("lot_code", some "SCN-LOT-B")],
        resolvedIntent := none, routeTarget := none, intentEvidence := [],
        missingRequiredSlots := [],
        trace := ["clarify_react:agent:finish_clarify",
          "react_clarify_gate_async:tool_hit:query_billing_rules_by_params"],
        messages := [] }).decision = "continue_business") ∧
    ((normalizeReactResult none
      { query := "编码是 SCN-LOT-B，帮我看下", intentHint := none, cityCode := none,
        lotCode := none, plateNo := none, orderNo := none, atTime := none }
      []
      { decision := "continue_business", clarifyQuestion := none,
        resolvedSlots := [("lot_code", some "SCN-LOT-B")],
        slotUpdates := [("lot_code", some "SCN-LOT-B")],
        resolvedIntent := none, routeTarget := none, intentEvidence := [],
        missingRequiredSlots := [],
        trace := ["clarify_react:agent:finish_clarify",
          "react_clarify_gate_async:tool_hit:query_billing_rules_by_params"],
        messages := [] }).clarifyError = none) := by
  refine ⟨rfl, rfl, rfl, rfl⟩

/-- C2 (code evaluation): on a ReAct result with decision `continue_business`
and non-null, unequal `resolved_intent`/`route_target` (the exact input of
the repo's unit test `test_react_clarify_gate_should_fallback_when_route_target_mismatch`),
`_normalize_react_result` returns error `missing_intent` — the string
`intent_route_mismatch` is produced nowhere in the module. -/
theorem normalize_react_route_mismatch_code_eval :
    (ClarifyResultE.resolvedIntent
      { decision := "continue_business", clarifyQuestion := none,
        resolvedSlots := [("order_no", some "SCN-006")],
        slotUpdates := [("order_no", some "SCN-006")],
        resolvedIntent := some "arrears_check", routeTarget := some "rule_explain",
        intentEvidence := ["mismatch_case"], missingRequiredSlots := [],
        trace := ["clarify_react:agent:finish_clarify"], messages := [] }
      = some "arrears_check") ∧
    (ClarifyResultE.routeTarget
      { decision := "continue_business", clarifyQuestion := none,
        resolvedSlots := [("order_no", some "SCN-006")],
        slotUpdates := [("order_no", some "SCN-006")],
        resolvedIntent := some "arrears_check", routeTarget := some "rule_explain",
        intentEvidence := ["mismatch_case"], missingRequiredSlots := [],
        trace := ["clarify_react:agent:finish_clarify"], messages := [] }
      = some "rule_explain") ∧
    (normalizeReactResult none
      { query := "编码是 SCN-006，帮我看下", intentHint := none, cityCode := none,
        lotCode := none, plateNo := none, orderNo := none, atTime := none }
      []
      { decision := "continue_business", clarifyQuestion := none,
        resolvedSlots := [("order_no", some "SCN-006")],
        slotUpdates := [("order_no", some "SCN-006")],
        resolvedIntent := some "arrears_check", routeTarget := some "rule_explain",
        intentEvidence := ["mismatch_case"], missingRequiredSlots := [],
        trace := ["clarify_react:agent:finish_clarify"], messages := [] }).clarifyError
      = some "missing_intent" ∧
    some "missing_intent" ≠ some "intent_route_mismatch" := by
  refine ⟨rfl, rfl, rfl, by decide⟩

/-- C4 (code evaluation): the state `_persist_session_memory` writes never
contains the `pending_clarification` or `clarify_messages` keys — also on
clarifying terminal turns, where the specification requires them to be
written; and the debug-route write sets `pending_clarification`
unconditionally — also on `continue_business`, where the specification
requires it to be cleared. -/
theorem persist_session_memory_clarify_keys
    (payload : Payload) (turnId : Option String) (result : PersistResult)
    (old : SessionState) (maxTurns : Nat) (dbg : DebugClarifyResult) (old2 : SessionState) :
    (persistNewState payload turnId result old maxTurns).pendingClarification = none ∧
    (persistNewState payload turnId result old maxTurns).clarifyMessages = none ∧
    (debugRoutePersistState old2 dbg).pendingClarification =
      some { decision := dbg.decision, error := dbg.clarifyError,
             missingRequiredSlots := dbg.missingRequiredSlots } := by
  refine ⟨rfl, rfl, rfl⟩

/-- C3 (counterexample): with `order.total_amount = 0.125` and
`simulation.total_amount = 0.13`, the two HALF_UP-quantised values are equal
(both `0.13`), yet the code reports `不一致`/`需人工复核`, because
`_normalize_decimal_str` quantises with the decimal default HALF_EVEN
(`0.125 → 0.12`). -/
theorem fee_verify_half_up_counterexample :
    quantizeHalfUp ((125 : ℚ) / 1000) = quantizeHalfUp ((13 : ℚ) / 100) ∧
    (feeVerifyAmountCheck ((125 : ℚ) / 1000) ((13 : ℚ) / 100)).amountCheckResult = "不一致" ∧
    (feeVerifyAmountCheck ((125 : ℚ) / 1000) ((13 : ℚ) / 100)).amountCheckAction = "需人工复核" := by
  have h1 : ((125 : ℚ) / 1000) * 100 = 25 / 2 := by norm_num
  have h2 : ((13 : ℚ) / 100) * 100 = 13 := by norm_num
  have f1 : ⌊(25 / 2 : ℚ)⌋ = 12 := by norm_num
  have f2 : ⌊(13 : ℚ)⌋ = 13 := by norm_num
  have hu1 : roundHalfUp (((125 : ℚ) / 1000) * 100) = 13 := by
    rw [h1]; simp only [roundHalfUp, f1]; norm_num
  have hu2 : roundHalfUp (((13 : ℚ) / 100) * 100) = 13 := by
    rw [h2]; simp only [roundHalfUp, f2]; norm_num
  have he1 : normalizeDecimalCents ((125 : ℚ) / 1000) = 12 := by
    simp only [normalizeDecimalCents, roundHalfEven]
    rw [h1]; simp only [f1]
    norm_num [Int.even_iff]
  have he2 : normalizeDecimalCents ((13 : ℚ) / 100) = 13 := by
    simp only [normalizeDecimalCents, roundHalfEven]
    rw [h2]; simp only [f2]
    norm_num
  refine ⟨?_, ?_, ?_⟩
  · simp only [quantizeHalfUp, hu1, hu2]
  · simp [feeVerifyAmountCheck, he1, he2]
  · simp [feeVerifyAmountCheck, he1, he2]

/-- C3 (amended): after both calls succeed the totals are each quantised to
two decimals with the decimal-default HALF_EVEN rounding, and
`amount_check_result` is `一致` with `amount_check_action` `自动通过` exactly
when the two quantised values are equal (otherwise `不一致`/`需人工复核`). -/
theorem fee_verify_amount_check_half_even (o s : ℚ) :
    ((feeVerifyAmountCheck o s).amountCheckResult = "一致" ↔
      quantizeHalfEven o = quantizeHalfEven s) ∧
    ((feeVerifyAmountCheck o s).amountCheckAction = "自动通过" ↔
      quantizeHalfEven o = quantizeHalfEven s) ∧
    ((feeVerifyAmountCheck o s).amountCheckResult = "不一致" ↔
      ¬ quantizeHalfEven o = quantizeHalfEven s) ∧
    ((feeVerifyAmountCheck o s).amountCheckAction = "需人工复核" ↔
      ¬ quantizeHalfEven o = quantizeHalfEven s) := by
  have key : (quantizeHalfEven o = quantizeHalfEven s) ↔
      normalizeDecimalCents o = normalizeDecimalCents s := by
    unfold quantizeHalfEven normalizeDecimalCents
    constructor
    · intro h
      have h2 : ((roundHalfEven (o * 100) : ℚ)) = ((roundHalfEven (s * 100) : ℚ)) := by
        field_simp at h
        exact_mod_cast h
      exact_mod_cast h2
    · intro h
      rw [h]
  by_cases h : normalizeDecimalCents o = normalizeDecimalCents s
  · simp [feeVerifyAmountCheck, h, key]
  · simp [feeVerifyAmountCheck, h, key]

theorem roundHalfUp_intCast (n : ℤ) : roundHalfUp ((n : ℤ) : ℚ) = n := by
  unfold roundHalfUp
  rw [Int.floor_intCast]
  norm_num

theorem c8_hamt : periodicOrTieredAmount c8Segment [((0:Int),660),(1,720),(2,430)] = (60, true) := by
  unfold periodicOrTieredAmount
  norm_num [List.foldl, c8Segment]

theorem c8_hdamts : segmentDayAmounts c8Segment [((0:Int),660),(1,720),(2,430)] = [20,20,20] := by
  unfold segmentDayAmounts
  norm_num [List.foldl, c8Segment]

theorem c8_hday1 : ∀ p ∈ iterMinutePoints 3600 198600 3600 43200, localDay p 480 = 0 := by
  intro p hp
  rw [mem_iterMinutePoints] at hp
  obtain ⟨-, j, hj0, rfl, h1, h2, h3⟩ := hp
  exact localDay_eq_of_bounds (by omega) (by omega)

theorem c8_hlen1 : (iterMinutePoints 3600 198600 3600 43200).length = 660 := by
  rw [length_iterMinutePoints]; decide

theorem c8_s1 : dayFoldList 480 [] (iterMinutePoints 3600 198600 3600 43200) = [(0,660)] := by
  rw [dayFoldList_const_day 480 0 _ _ c8_hday1, c8_hlen1]; decide


theorem c8_hday2 : ∀ p ∈ iterMinutePoints 3600 198600 86400 129600, localDay p 480 = 1 := by
  intro p hp
  rw [mem_iterMinutePoints] at hp
  obtain ⟨-, j, hj0, rfl, h1, h2, h3⟩ := hp
  exact localDay_eq_of_bounds (by omega) (by omega)

theorem c8_hday3 : ∀ p ∈ iterMinutePoints 3600 198600 172800 198600, localDay p 480 = 2 := by
  intro p hp
  rw [mem_iterMinutePoints] at hp
  obtain ⟨-, j, hj0, rfl, h1, h2, h3⟩ := hp
  exact localDay_eq_of_bounds (by omega) (by omega)

theorem c8_hlen2 : (iterMinutePoints 3600 198600 86400 129600).length = 720 := by
  rw [length_iterMinutePoints]; decide

theorem c8_hlen3 : (iterMinutePoints 3600 198600 172800 198600).length = 430 := by
  rw [length_iterMinutePoints]; decide

theorem c8_s2 : dayFoldList 480 [((0:Int),660)] (iterMinutePoints 3600 198600 86400 129600) = [(0,660),(1,720)] := by
  rw [dayFoldList_const_day 480 1 _ _ c8_hday2, c8_hlen2]; decide

theorem c8_s3 : dayFoldList 480 [((0:Int),660),(1,720)] (iterMinutePoints 3600 198600 172800 198600) = [(0,660),(1,720),(2,430)] := by
  rw [dayFoldList_const_day 480 2 _ _ c8_hday3, c8_hlen3]; decide

theorem c8_hcands : buildSegmentCandidateIntervals c8Segment 3600 198600 =
    [(3600, 43200), (86400, 129600), (172800, 198600)] := by decide

theorem c8_hpts : pointsOfIntervals 3600 198600 [(3600, 43200), (86400, 129600), (172800, 198600)] =
    iterMinutePoints 3600 198600 3600 43200 ++
      (iterMinutePoints 3600 198600 86400 129600 ++
        (iterMinutePoints 3600 198600 172800 198600 ++ [])) := rfl

theorem c8_hdays : dayFoldList 480 []
    (pointsOfIntervals 3600 198600 [(3600, 43200), (86400, 129600), (172800, 198600)]) =
    [(0,660),(1,720),(2,430)] := by
  rw [c8_hpts, dayFoldList_append, c8_s1, dayFoldList_append, c8_s2, dayFoldList_append, c8_s3]
  rfl

theorem c8_hptslen : (pointsOfIntervals 3600 198600 [(3600, 43200), (86400, 129600), (172800, 198600)]).length = 1810 := by
  rw [c8_hpts]
  simp [List.length_append, c8_hlen1, c8_hlen2, c8_hlen3]

theorem c8_hcol : collectSegmentMinutesByWindow [c8Segment] 3600 198600 =
    { segMinutes := [(0, 1810)], segDayMinutes := [(0, [(0,660),(1,720),(2,430)])] } := by
  rw [collect_window_eq_spec]
  show collectSpec 3600 198600 [(0, c8Segment)] { segMinutes := [], segDayMinutes := [] } [] = _
  unfold collectSpec
  rw [c8_hcands]
  have hsub : subtractIntervals [(3600, 43200), (86400, 129600), (172800, 198600)] [] =
      [(3600, 43200), (86400, 129600), (172800, 198600)] := by decide
  rw [hsub]
  rw [if_neg (by decide)]
  have hsd : setdefaultDay ([] : List (Nat × List (Int × Nat))) 0 = [(0, [])] := rfl
  rw [hsd]
  dsimp only
  have hoff : resolveWindowTimezone c8Segment = 480 := rfl
  rw [hoff, foldl_bumpInner_single, c8_hdays, c8_hptslen]
  unfold collectSpec
  decide


/-- C8: for a single periodic segment with window 08:00-20:00 Asia/Shanghai,
unit_minutes=30, unit_price=2, free_minutes=0, max_charge=20, `simulate_fee`
on entry Day1 09:00 and exit Day3 15:10 (+08:00 instants) returns
total_amount 60.00 with 1810 counted minutes and the capped flag set; the
three local dates get 660/720/430 minutes and each date's charge is clamped
to the per-day cap 20. -/
theorem simulate_fee_cross_day_cap :
    simulateFee [c8Segment] 3600 198600 =
      { durationMinutes := 3250, totalAmount := 60,
        breakdown := [SegmentCharge.mk "all_day_periodic" "periodic" 1810 60 0 true] } ∧
    (collectSegmentMinutesByWindow [c8Segment] 3600 198600).segDayMinutes =
      [(0, [(0, 660), (1, 720), (2, 430)])] ∧
    segmentDayAmounts c8Segment [(0, 660), (1, 720), (2, 430)] = [20, 20, 20] := by
  refine ⟨?_, by rw [c8_hcol], c8_hdamts⟩
  unfold simulateFee
  rw [if_neg (by decide), c8_hcol]
  dsimp only
  have hsort : List.insertionSort (fun a b : Nat × Nat => a.1 ≤ b.1) [(0, 1810)] = [(0, 1810)] := rfl
  rw [hsort]
  dsimp only [List.foldl]
  have hitem : [c8Segment].getD 0 default = c8Segment := rfl
  rw [hitem]
  rw [if_neg (by decide : ¬ c8Segment.stype = "free")]
  have hlk : (List.lookup 0 [(0, [((0:Int),660),(1,720),(2,430)])]).getD [] = [(0,660),(1,720),(2,430)] := rfl
  rw [hlk, c8_hamt]
  have hq : quantizeHalfUp 60 = 60 := by
    unfold quantizeHalfUp
    rw [show ((60:ℚ) * 100) = ((6000 : ℤ) : ℚ) by norm_num, roundHalfUp_intCast]
    norm_num
  dsimp only
  rw [hq, show ((0:ℚ) + 60) = (60:ℚ) by norm_num, hq]
  norm_num [c8Segment]

instance : IsTotal (ChunkRow × SourceRow × ℚ)
    (fun a b => retrieveKey a ≤ retrieveKey b) :=
  ⟨fun a b => le_total (retrieveKey a) (retrieveKey b)⟩

instance : IsTrans (ChunkRow × SourceRow × ℚ)
    (fun a b => retrieveKey a ≤ retrieveKey b) :=
  ⟨fun _ _ _ hab hbc => le_trans hab hbc⟩

/-- C9: for every retrieve request carrying a `query_embedding` of the
configured dimension, the embedding branch of `KnowledgeRepository.retrieve`
succeeds and returns at most `top_k` items, sorted by non-decreasing score
(the cosine distance), where the underlying row order is the full
lexicographic `(score, source_id, chunk_index, id)` order of the SQL
`ORDER BY`. -/
theorem retrieve_embedding_sorted (dim : Nat) (scoreFn : List ℚ → List ℚ → ℚ)
    (table : List (ChunkRow × SourceRow)) (payload : RetrievePayload) (emb : List ℚ)
    (hEmb : payload.queryEmbedding = some emb) (hDim : emb.length = dim) :
    ∃ items : List RetrieveItem,
      retrieveEmbedding dim scoreFn table payload = Except.ok items ∧
      items.length ≤ payload.topK ∧
      List.Sorted (fun a b : RetrieveItem => a.score.getD 0 ≤ b.score.getD 0) items ∧
      ∃ rows : List (ChunkRow × SourceRow × ℚ),
        List.Sorted (fun a b => retrieveKey a ≤ retrieveKey b) rows ∧
        items = (rows.take payload.topK).map toRetrieveItem := by
  unfold retrieveEmbedding
  rw [hEmb]
  dsimp only
  rw [if_neg (show ¬ emb.length ≠ dim by simp [hDim])]
  set scored := (table.filter (rowPassesFilters payload)).map
    (fun row => (row.1, row.2, scoreFn emb row.1.embedding)) with hscored
  set sorted := List.insertionSort
    (fun a b : ChunkRow × SourceRow × ℚ => retrieveKey a ≤ retrieveKey b) scored with hsorted
  have hsortedP : List.Sorted (fun a b => retrieveKey a ≤ retrieveKey b) sorted :=
    List.sorted_insertionSort _ _
  have htakeP : List.Sorted (fun a b => retrieveKey a ≤ retrieveKey b)
      (sorted.take payload.topK) :=
    List.Pairwise.sublist (List.take_sublist _ _) hsortedP
  refine ⟨_, rfl, ?_, ?_, sorted, hsortedP, rfl⟩
  · rw [List.length_map]
    exact List.length_take_le _ _
  · refine List.Pairwise.map _ ?_ htakeP
    intro a b hab
    have : a.2.2 ≤ b.2.2 := by
      rcases (Prod.Lex.le_iff _ _).mp hab with h | ⟨h, -⟩
      · exact le_of_lt h
      · exact le_of_eq h
    simpa [toRetrieveItem] using this

/-- Witness for `retrieve_embedding_sorted` at a concrete two-row table. -/
theorem retrieve_embedding_sorted_witness :
    (RetrievePayload.mk "q" (some [0]) 5 none none none none none none true).queryEmbedding
      = some [0] ∧
    List.length [(0 : ℚ)] = 1 ∧
    (∃ items : List RetrieveItem,
      retrieveEmbedding 1 (fun _ v => v.headD 0)
        [(ChunkRow.mk 1 1 none 0 "a" [3], SourceRow.mk 1 "s1" "d" "t" "T1" none [] none none true),
         (ChunkRow.mk 2 1 none 1 "b" [2], SourceRow.mk 1 "s1" "d" "t" "T1" none [] none none true)]
        (RetrievePayload.mk "q" (some [0]) 5 none none none none none none true) =
        Except.ok items ∧
      items.length ≤ (RetrievePayload.mk "q" (some [0]) 5 none none none none none none true).topK ∧
      List.Sorted (fun a b : RetrieveItem => a.score.getD 0 ≤ b.score.getD 0) items ∧
      ∃ rows : List (ChunkRow × SourceRow × ℚ),
        List.Sorted (fun a b => retrieveKey a ≤ retrieveKey b) rows ∧
        items = (rows.take
          (RetrievePayload.mk "q" (some [0]) 5 none none none none none none true).topK).map
            toRetrieveItem) :=
  ⟨rfl, rfl,
    retrieve_embedding_sorted 1 (fun _ v => v.headD 0)
      [(ChunkRow.mk 1 1 none 0 "a" [3], SourceRow.mk 1 "s1" "d" "t" "T1" none [] none none true),
       (ChunkRow.mk 2 1 none 1 "b" [2], SourceRow.mk 1 "s1" "d" "t" "T1" none [] none none true)]
      (RetrievePayload.mk "q" (some [0]) 5 none none none none none none true) [0] rfl rfl⟩


/-! ## Association-list lookup lemmas -/

section LookupLemmas

variable {α : Type} [BEq α] [LawfulBEq α] [DecidableEq α]

theorem lookup_of_not_any {β : Type} (m : List (α × β)) (k : α)
    (h : m.any (fun kv => kv.1 = k) = false) : m.lookup k = none := by
  induction m with
  | nil => rfl
  | cons kv t ih =>
    simp only [List.any_cons, Bool.or_eq_false_iff, decide_eq_false_iff_not] at h
    have hb : (k == kv.1) = false := beq_eq_false_iff_ne.mpr (fun hk => h.1 hk.symm)
    simp [List.lookup, hb, ih h.2]

theorem lookup_isSome_of_any {β : Type} (m : List (α × β)) (k : α)
    (h : m.any (fun kv => kv.1 = k) = true) : (m.lookup k).isSome := by
  induction m with
  | nil => simp at h
  | cons kv t ih =>
    by_cases hk : kv.1 = k
    · have hb : (k == kv.1) = true := beq_iff_eq.mpr hk.symm
      simp [List.lookup, hb]
    · simp only [List.any_cons, decide_eq_true_eq] at h
      have ht : t.any (fun kv => kv.1 = k) = true := by
        rcases Bool.or_eq_true_iff.mp h with h1 | h1
        · exact absurd (of_decide_eq_true h1) hk
        · exact h1
      have hb : (k == kv.1) = false := beq_eq_false_iff_ne.mpr (fun hkk => hk hkk.symm)
      simp [List.lookup, hb, ih ht]

theorem lookup_append_of_none {β : Type} (a b : List (α × β)) (i : α)
    (h : a.lookup i = none) : (a ++ b).lookup i = b.lookup i := by
  induction a with
  | nil => rfl
  | cons kv t ih =>
    by_cases hk : (i == kv.1) = true
    · simp [List.lookup, hk] at h
    · have hb : (i == kv.1) = false := by
        cases hbb : (i == kv.1)
        · rfl
        · exact absurd hbb hk
      simp only [List.lookup, hb] at h
      simp [List.cons_append, List.lookup, hb, ih h]

theorem lookup_append_of_some {β : Type} (a b : List (α × β)) (i : α) (v : β)
    (h : a.lookup i = some v) : (a ++ b).lookup i = some v := by
  induction a with
  | nil => simp [List.lookup] at h
  | cons kv t ih =>
    cases hb : (i == kv.1) with
    | true =>
      simp only [List.lookup, hb] at h
      simp [List.cons_append, List.lookup, hb, h]
    | false =>
      simp only [List.lookup, hb] at h
      simp [List.cons_append, List.lookup, hb, ih h]

theorem lookup_map_update_fun {β : Type} (f : β → β) (m : List (α × β)) (k : α) :
    (m.map (fun kv => if kv.1 = k then (k, f kv.2) else kv)).lookup k
      = (m.lookup k).map f := by
  induction m with
  | nil => rfl
  | cons kv t ih =>
    by_cases h : kv.1 = k
    · simp only [List.map_cons, if_pos h]
      have hb : (k == kv.1) = true := beq_iff_eq.mpr h.symm
      simp [List.lookup, hb]
    · simp only [List.map_cons, if_neg h]
      have hb : (k == kv.1) = false := beq_eq_false_iff_ne.mpr (fun hk => h hk.symm)
      simp [List.lookup, hb, ih]

theorem lookup_map_update_fun_ne {β : Type} (f : β → β) (m : List (α × β)) (k i : α)
    (hik : i ≠ k) :
    (m.map (fun kv => if kv.1 = k then (k, f kv.2) else kv)).lookup i = m.lookup i := by
  induction m with
  | nil => rfl
  | cons kv t ih =>
    by_cases h : kv.1 = k
    · simp only [List.map_cons, if_pos h]
      have hb2 : (i == k) = false := beq_eq_false_iff_ne.mpr hik
      have hb : (i == kv.1) = false := by rw [h]; exact hb2
      simp [List.lookup, hb2, hb, ih]
    · simp only [List.map_cons, if_neg h]
      cases hb : (i == kv.1) with
      | true => simp [List.lookup, hb]
      | false => simp [List.lookup, hb, ih]

theorem lookup_bump_self (m : List (α × Nat)) (k : α) :
    (bump m k).lookup k = some ((m.lookup k).getD 0 + 1) := by
  unfold bump
  cases hany : m.any (fun kv => kv.1 = k) with
  | true =>
    rw [if_pos rfl]
    obtain ⟨v, hv⟩ := Option.isSome_iff_exists.mp (lookup_isSome_of_any m k hany)
    have := lookup_map_update_fun (fun x => x + 1) m k
    simp only [hv, Option.map_some] at this
    rw [this, hv]
    rfl
  | false =>
    rw [if_neg (by simp [hany])]
    rw [lookup_append_of_none _ _ _ (lookup_of_not_any m k hany),
      lookup_of_not_any m k hany]
    simp [List.lookup]

theorem lookup_bump_ne (m : List (α × Nat)) (k i : α) (hik : i ≠ k) :
    (bump m k).lookup i = m.lookup i := by
  unfold bump
  cases hany : m.any (fun kv => kv.1 = k) with
  | true =>
    rw [if_pos rfl]
    exact lookup_map_update_fun_ne (fun x => x + 1) m k i hik
  | false =>
    rw [if_neg (by simp [hany])]
    cases hl : m.lookup i with
    | some v => exact lookup_append_of_some _ _ _ _ hl
    | none =>
      rw [lookup_append_of_none _ _ _ hl]
      simp [List.lookup, beq_eq_false_iff_ne.mpr hik]

theorem lookup_addCount_self (m : List (α × Nat)) (k : α) (n : Nat) (hn : n ≠ 0) :
    (addCount m k n).lookup k = some ((m.lookup k).getD 0 + n) := by
  unfold addCount
  rw [if_neg hn]
  cases hany : m.any (fun kv => kv.1 = k) with
  | true =>
    rw [if_pos rfl]
    obtain ⟨v, hv⟩ := Option.isSome_iff_exists.mp (lookup_isSome_of_any m k hany)
    have := lookup_map_update_fun (fun x => x + n) m k
    simp only [hv, Option.map_some] at this
    rw [this, hv]
    rfl
  | false =>
    rw [if_neg (by simp [hany])]
    rw [lookup_append_of_none _ _ _ (lookup_of_not_any m k hany),
      lookup_of_not_any m k hany]
    simp [List.lookup]

theorem lookup_addCount_ne (m : List (α × Nat)) (k i : α) (n : Nat) (hik : i ≠ k) :
    (addCount m k n).lookup i = m.lookup i := by
  unfold addCount
  by_cases hn : n = 0
  · rw [if_pos hn]
  rw [if_neg hn]
  cases hany : m.any (fun kv => kv.1 = k) with
  | true =>
    rw [if_pos rfl]
    exact lookup_map_update_fun_ne (fun x => x + n) m k i hik
  | false =>
    rw [if_neg (by simp [hany])]
    cases hl : m.lookup i with
    | some v => exact lookup_append_of_some _ _ _ _ hl
    | none =>
      rw [lookup_append_of_none _ _ _ hl]
      simp [List.lookup, beq_eq_false_iff_ne.mpr hik]

end LookupLemmas

theorem lookup_setdefaultDay_self (m : List (Nat × List (Int × Nat))) (k : Nat) :
    (setdefaultDay m k).lookup k = some ((m.lookup k).getD []) := by
  unfold setdefaultDay
  cases hany : m.any (fun kv => kv.1 = k) with
  | true =>
    rw [if_pos rfl]
    obtain ⟨v, hv⟩ := Option.isSome_iff_exists.mp (lookup_isSome_of_any m k hany)
    rw [hv]
    rfl
  | false =>
    rw [if_neg (by simp [hany])]
    rw [lookup_append_of_none _ _ _ (lookup_of_not_any m k hany),
      lookup_of_not_any m k hany]
    simp [List.lookup]

theorem lookup_setdefaultDay_ne (m : List (Nat × List (Int × Nat))) (k i : Nat)
    (hik : i ≠ k) : (setdefaultDay m k).lookup i = m.lookup i := by
  unfold setdefaultDay
  cases hany : m.any (fun kv => kv.1 = k) with
  | true => rw [if_pos rfl]
  | false =>
    rw [if_neg (by simp [hany])]
    cases hl : m.lookup i with
    | some v => exact lookup_append_of_some _ _ _ _ hl
    | none =>
      rw [lookup_append_of_none _ _ _ hl]
      simp [List.lookup, beq_eq_false_iff_ne.mpr hik]

theorem lookup_bumpInner_self (m : List (Nat × List (Int × Nat))) (k : Nat) (d : Int) :
    (bumpInner m k d).lookup k = (m.lookup k).map (fun l => bump l d) :=
  lookup_map_update_fun (fun l => bump l d) m k

theorem lookup_bumpInner_ne (m : List (Nat × List (Int × Nat))) (k i : Nat) (d : Int)
    (hik : i ≠ k) : (bumpInner m k d).lookup i = m.lookup i :=
  lookup_map_update_fun_ne (fun l => bump l d) m k i hik

/-! ## Exact-cent arithmetic of the charging fold -/

theorem quantizeHalfUp_cast (n : ℤ) : quantizeHalfUp ((n : ℚ) / 100) = (n : ℚ) / 100 := by
  unfold quantizeHalfUp
  have h : ((n : ℚ) / 100) * 100 = (n : ℚ) := by
    field_simp
  rw [h, roundHalfUp_intCast]

theorem quantizeHalfUp_cents (x : ℚ) : ∃ n : ℤ, quantizeHalfUp x = (n : ℚ) / 100 :=
  ⟨roundHalfUp (x * 100), rfl⟩

theorem quantizeHalfUp_idem (x : ℚ) : quantizeHalfUp (quantizeHalfUp x) = quantizeHalfUp x := by
  obtain ⟨n, hn⟩ := quantizeHalfUp_cents x
  rw [hn, quantizeHalfUp_cast]

theorem foldl_charge_invariant {β : Type}
    (step : List SegmentCharge × ℚ → β → List SegmentCharge × ℚ)
    (hstep : ∀ st b, ∃ c : SegmentCharge,
      step st b = (st.1 ++ [c], st.2 + c.amount) ∧ ∃ n : ℤ, c.amount = (n : ℚ) / 100) :
    ∀ (l : List β) (st : List SegmentCharge × ℚ),
      st.2 = (st.1.map SegmentCharge.amount).sum →
      (∃ n : ℤ, st.2 = (n : ℚ) / 100) →
      (∀ c ∈ st.1, ∃ n : ℤ, c.amount = (n : ℚ) / 100) →
      (l.foldl step st).2 = ((l.foldl step st).1.map SegmentCharge.amount).sum ∧
        (∃ n : ℤ, (l.foldl step st).2 = (n : ℚ) / 100) ∧
        ∀ c ∈ (l.foldl step st).1, ∃ n : ℤ, c.amount = (n : ℚ) / 100
  | [], _, h1, h2, h3 => ⟨h1, h2, h3⟩
  | b :: l, st, h1, h2, h3 => by
    obtain ⟨c, hc, n, hn⟩ := hstep st b
    obtain ⟨m, hm⟩ := h2
    rw [List.foldl_cons, hc]
    refine foldl_charge_invariant step hstep l _ ?_ ?_ ?_
    · simp [h1, List.map_append]
    · refine ⟨m + n, ?_⟩
      rw [hm, hn]
      push_cast
      ring
    · intro x hx
      rcases List.mem_append.mp hx with h | h
      · exact h3 x h
      · rw [List.mem_singleton.mp h]
        exact ⟨n, hn⟩

/-! ## Sweep and subtract: membership and structure -/

theorem memI_sweepCovered (endI : Int) :
    ∀ (cov : List (Int × Int)) (cursor p : Int),
      (∀ se ∈ cov, se.1 < se.2) →
      List.Pairwise (fun a b : Int × Int => a.2 < b.1) cov →
      ((memI p (sweepCovered endI cursor cov).1 ∨
          ((sweepCovered endI cursor cov).2 ≤ p ∧ p < endI)) ↔
        (cursor ≤ p ∧ p < endI ∧ ¬ memI p cov))
  | [], cursor, p, _, _ => by
    simp only [sweepCovered]
    constructor
    · rintro (h | h)
      · exact absurd h (memI_nil p)
      · exact ⟨h.1, h.2, memI_nil p⟩
    · rintro ⟨h1, h2, _⟩
      exact Or.inr ⟨h1, h2⟩
  | (cs, ce) :: rest, cursor, p, hne, hpw => by
    have hcse : cs < ce := hne (cs, ce) (List.mem_cons_self _ _)
    have hrest_ne : ∀ se ∈ rest, se.1 < se.2 := fun se hse => hne se (List.mem_cons_of_mem _ hse)
    have hrest_pw : List.Pairwise (fun a b : Int × Int => a.2 < b.1) rest :=
      (List.pairwise_cons.mp hpw).2
    have hrest_gt : ∀ se ∈ rest, ce < se.1 := (List.pairwise_cons.mp hpw).1
    unfold sweepCovered
    by_cases h1 : ce ≤ cursor
    · rw [if_pos h1, memI_sweepCovered endI rest cursor p hrest_ne hrest_pw]
      constructor
      · rintro ⟨ha, hb, hc⟩
        refine ⟨ha, hb, ?_⟩
        rw [memI_cons]
        rintro (⟨h2, h3⟩ | h2)
        · omega
        · exact hc h2
      · rintro ⟨ha, hb, hc⟩
        rw [memI_cons] at hc
        exact ⟨ha, hb, fun h => hc (Or.inr h)⟩
    · rw [if_neg h1]
      by_cases h2 : cs ≥ endI
      · rw [if_pos h2]
        constructor
        · rintro (h | h)
          · exact absurd h (memI_nil p)
          · refine ⟨h.1, h.2, ?_⟩
            rw [memI_cons]
            rintro (⟨h3, h4⟩ | h3)
            · omega
            · obtain ⟨se, hse, hs1, hs2⟩ := h3
              have := hrest_gt se hse
              omega
        · rintro ⟨ha, hb, _⟩
          exact Or.inr ⟨ha, hb⟩
      · rw [if_neg h2]
        dsimp only
        by_cases h3 : max cursor ce ≥ endI
        · rw [if_pos h3]
          by_cases h4 : cs > cursor
          · rw [if_pos h4]
            rw [memI_singleton]
            constructor
            · rintro (⟨ha, hb⟩ | ⟨ha, hb⟩)
              · refine ⟨ha, by omega, ?_⟩
                rw [memI_cons]
                rintro (⟨h5, h6⟩ | h5)
                · omega
                · obtain ⟨se, hse, hs1, hs2⟩ := h5
                  have := hrest_gt se hse
                  omega
              · omega
            · rintro ⟨ha, hb, hc⟩
              rw [memI_cons] at hc
              refine Or.inl ⟨ha, ?_⟩
              have hhead : ¬ (cs ≤ p ∧ p < ce) := fun h => hc (Or.inl h)
              omega
          · rw [if_neg h4]
            constructor
            · rintro (h | ⟨ha, hb⟩)
              · exact absurd h (memI_nil p)
              · omega
            · rintro ⟨ha, hb, hc⟩
              rw [memI_cons] at hc
              have hhead : ¬ (cs ≤ p ∧ p < ce) := fun h => hc (Or.inl h)
              omega
        · rw [if_neg h3]
          rw [memI_append, or_assoc,
            memI_sweepCovered endI rest (max cursor ce) p hrest_ne hrest_pw]
          by_cases h4 : cs > cursor
          · rw [if_pos h4, memI_singleton]
            constructor
            · rintro (⟨ha, hb⟩ | ⟨ha, hb, hc⟩)
              · refine ⟨ha, by omega, ?_⟩
                rw [memI_cons]
                rintro (⟨h5, h6⟩ | h5)
                · omega
                · obtain ⟨se, hse, hs1, hs2⟩ := h5
                  have := hrest_gt se hse
                  omega
              · refine ⟨by omega, hb, ?_⟩
                rw [memI_cons]
                rintro (⟨h5, h6⟩ | h5)
                · omega
                · exact hc h5
            · rintro ⟨ha, hb, hc⟩
              rw [memI_cons] at hc
              have hhead : ¬ (cs ≤ p ∧ p < ce) := fun h => hc (Or.inl h)
              have hrest2 : ¬ memI p rest := fun h => hc (Or.inr h)
              by_cases h5 : ce ≤ p
              · exact Or.inr ⟨by omega, hb, hrest2⟩
              · exact Or.inl ⟨ha, by omega⟩
          · rw [if_neg h4]
            constructor
            · rintro (h | ⟨ha, hb, hc⟩)
              · exact absurd h (memI_nil p)
              · refine ⟨by omega, hb, ?_⟩
                rw [memI_cons]
                rintro (⟨h5, h6⟩ | h5)
                · omega
                · exact hc h5
            · rintro ⟨ha, hb, hc⟩
              rw [memI_cons] at hc
              have hhead : ¬ (cs ≤ p ∧ p < ce) := fun h => hc (Or.inl h)
              have hrest2 : ¬ memI p rest := fun h => hc (Or.inr h)
              exact Or.inr ⟨by omega, hb, hrest2⟩

theorem sweepCovered_struct (endI : Int) (G P : Int → Prop) :
    ∀ (cov : List (Int × Int)) (cursor : Int),
      (∀ se ∈ cov, se.1 < se.2) →
      G cursor → (∀ se ∈ cov, G se.2 ∧ P se.1) →
      (∀ se ∈ (sweepCovered endI cursor cov).1,
          cursor ≤ se.1 ∧ se.1 < se.2 ∧ se.2 ≤ endI ∧ G se.1 ∧ P se.2) ∧
        cursor ≤ (sweepCovered endI cursor cov).2 ∧
        G (sweepCovered endI cursor cov).2 ∧
        List.Pairwise (fun a b : Int × Int => a.2 ≤ b.1) (sweepCovered endI cursor cov).1 ∧
        (∀ se ∈ (sweepCovered endI cursor cov).1, se.2 ≤ (sweepCovered endI cursor cov).2)
  | [], cursor, _, hG, _ => by
    simp only [sweepCovered]
    exact ⟨fun se hse => absurd hse (List.not_mem_nil se), le_refl _, hG, List.Pairwise.nil,
      fun se hse => absurd hse (List.not_mem_nil se)⟩
  | (cs, ce) :: rest, cursor, hne, hG, hGP => by
    have hcse : cs < ce := hne (cs, ce) (List.mem_cons_self _ _)
    have hrest_ne : ∀ se ∈ rest, se.1 < se.2 := fun se hse => hne se (List.mem_cons_of_mem _ hse)
    have hrest_GP : ∀ se ∈ rest, G se.2 ∧ P se.1 :=
      fun se hse => hGP se (List.mem_cons_of_mem _ hse)
    have hGce : G ce := (hGP (cs, ce) (List.mem_cons_self _ _)).1
    have hPcs : P cs := (hGP (cs, ce) (List.mem_cons_self _ _)).2
    unfold sweepCovered
    by_cases h1 : ce ≤ cursor
    · rw [if_pos h1]
      exact sweepCovered_struct endI G P rest cursor hrest_ne hG hrest_GP
    · rw [if_neg h1]
      by_cases h2 : cs ≥ endI
      · rw [if_pos h2]
        exact ⟨fun se hse => absurd hse (List.not_mem_nil se), le_refl _, hG, List.Pairwise.nil,
          fun se hse => absurd hse (List.not_mem_nil se)⟩
      · rw [if_neg h2]
        dsimp only
        have hGm : G (max cursor ce) := by
          rcases max_choice cursor ce with h | h
          · rw [h]; exact hG
          · rw [h]; exact hGce
        by_cases h3 : max cursor ce ≥ endI
        · rw [if_pos h3]
          by_cases h4 : cs > cursor
          · rw [if_pos h4]
            refine ⟨?_, by omega, hGm, List.pairwise_singleton _ _, ?_⟩
            · intro se hse
              rw [List.mem_singleton] at hse
              rw [hse]
              refine ⟨le_refl _, by omega, by omega, hG, ?_⟩
              show P (min cs endI)
              rw [min_eq_left (by omega : cs ≤ endI)]
              exact hPcs
            · intro se hse
              rw [List.mem_singleton] at hse
              rw [hse]
              omega
          · rw [if_neg h4]
            exact ⟨fun se hse => absurd hse (List.not_mem_nil se), by omega, hGm,
              List.Pairwise.nil, fun se hse => absurd hse (List.not_mem_nil se)⟩
        · rw [if_neg h3]
          dsimp only
          obtain ⟨ih1, ih2, ih3, ih4, ih5⟩ :=
            sweepCovered_struct endI G P rest (max cursor ce) hrest_ne hGm hrest_GP
          by_cases h4 : cs > cursor
          · rw [if_pos h4]
            constructor
            · intro se hse
              rcases List.mem_append.mp hse with h | h
              · rw [List.mem_singleton] at h
                rw [h]
                refine ⟨le_refl _, by omega, by omega, hG, ?_⟩
                show P (min cs endI)
                rw [min_eq_left (by omega : cs ≤ endI)]
                exact hPcs
              · obtain ⟨ha, hb, hc, hd, he⟩ := ih1 se h
                exact ⟨by omega, hb, hc, hd, he⟩
            · refine ⟨by omega, ih3, ?_, ?_⟩
              · rw [List.pairwise_append]
                refine ⟨List.pairwise_singleton _ _, ih4, ?_⟩
                intro a ha b hb
                rw [List.mem_singleton] at ha
                have := (ih1 b hb).1
                rw [ha]
                dsimp only
                omega
              · intro se hse
                rcases List.mem_append.mp hse with h | h
                · rw [List.mem_singleton] at h
                  rw [h]
                  dsimp only
                  omega
                · exact ih5 se h
          · rw [if_neg h4]
            rw [List.nil_append]
            exact ⟨fun se hse => by
                obtain ⟨ha, hb, hc, hd, he⟩ := ih1 se hse
                exact ⟨by omega, hb, hc, hd, he⟩,
              by omega, ih3, ih4, ih5⟩

theorem memI_flatMap {α : Type} (p : Int) (l : List α) (f : α → List (Int × Int)) :
    memI p (l.flatMap f) ↔ ∃ a ∈ l, memI p (f a) := by
  unfold memI
  constructor
  · rintro ⟨se, hse, h⟩
    obtain ⟨a, ha, hse2⟩ := List.mem_flatMap.mp hse
    exact ⟨a, ha, se, hse2, h⟩
  · rintro ⟨a, ha, se, hse, h⟩
    exact ⟨se, List.mem_flatMap.mpr ⟨a, ha, hse⟩, h⟩

theorem mergeSortedIntervals_pred (Q R : Int → Prop) :
    ∀ (l : List (Int × Int)) (cur : Int × Int),
      R cur.1 → Q cur.2 → (∀ se ∈ l, R se.1 ∧ Q se.2) →
      ∀ se ∈ mergeSortedIntervals cur l, R se.1 ∧ Q se.2
  | [], cur, hR, hQ, _ => by
    intro se hse
    simp only [mergeSortedIntervals, List.mem_singleton] at hse
    rw [hse]
    exact ⟨hR, hQ⟩
  | (s, e) :: rest, cur, hR, hQ, hl => by
    intro se hse
    unfold mergeSortedIntervals at hse
    by_cases hme : s ≤ cur.2
    · rw [if_pos hme] at hse
      refine mergeSortedIntervals_pred Q R rest (cur.1, max cur.2 e) hR ?_ ?_ se hse
      · rcases max_choice cur.2 e with h | h
        · show Q (max cur.2 e)
          rw [h]
          exact hQ
        · show Q (max cur.2 e)
          rw [h]
          exact (hl (s, e) (List.mem_cons_self _ _)).2
      · intro x hx
        exact hl x (List.mem_cons_of_mem _ hx)
    · rw [if_neg hme] at hse
      rcases List.mem_cons.mp hse with h | h
      · rw [h]
        exact ⟨hR, hQ⟩
      · exact mergeSortedIntervals_pred Q R rest (s, e)
          (hl (s, e) (List.mem_cons_self _ _)).1 (hl (s, e) (List.mem_cons_self _ _)).2
          (fun x hx => hl x (List.mem_cons_of_mem _ hx)) se h

theorem mergeIntervals_pred (Q R : Int → Prop) (l : List (Int × Int))
    (h : ∀ se ∈ l, R se.1 ∧ Q se.2) :
    ∀ se ∈ mergeIntervals l, R se.1 ∧ Q se.2 := by
  unfold mergeIntervals
  have hperm := List.perm_insertionSort (fun a b : Int × Int => a.1 ≤ b.1) l
  rcases hs : List.insertionSort (fun a b : Int × Int => a.1 ≤ b.1) l with _ | ⟨hd, rest⟩
  · intro se hse
    exact absurd hse (List.not_mem_nil se)
  · rw [hs] at hperm
    have h2 : ∀ se ∈ hd :: rest, R se.1 ∧ Q se.2 := fun se hse => h se (hperm.mem_iff.mp hse)
    exact mergeSortedIntervals_pred Q R rest hd
      (h2 hd (List.mem_cons_self _ _)).1 (h2 hd (List.mem_cons_self _ _)).2
      (fun x hx => h2 x (List.mem_cons_of_mem _ hx))

theorem memI_subtractIntervals (ints cov : List (Int × Int)) (p : Int)
    (hcov : ∀ se ∈ cov, se.1 < se.2) :
    memI p (subtractIntervals ints cov) ↔ memI p ints ∧ ¬ memI p cov := by
  unfold subtractIntervals
  by_cases hi : ints = []
  · rw [if_pos hi, hi]
    simp [memI_nil]
  · rw [if_neg hi]
    by_cases hc : cov = []
    · rw [if_pos hc, hc]
      simp [memI_nil]
    · rw [if_neg hc]
      dsimp only
      obtain ⟨hm1, hm2⟩ := mergeIntervals_struct cov hcov
      rw [memI_flatMap]
      constructor
      · rintro ⟨se, hse, hmem⟩
        rw [memI_append] at hmem
        have hswp : memI p (sweepCovered se.2 se.1 (mergeIntervals cov)).1 ∨
            ((sweepCovered se.2 se.1 (mergeIntervals cov)).2 ≤ p ∧ p < se.2) := by
          rcases hmem with h | h
          · exact Or.inl h
          · by_cases ht : (sweepCovered se.2 se.1 (mergeIntervals cov)).2 < se.2
            · rw [if_pos ht, memI_singleton] at h
              exact Or.inr h
            · rw [if_neg ht] at h
              exact absurd h (memI_nil p)
        have hch := (memI_sweepCovered se.2 (mergeIntervals cov) se.1 p hm1 hm2).mp hswp
        refine ⟨⟨se, hse, hch.1, hch.2.1⟩, ?_⟩
        rw [← memI_mergeIntervals]
        exact hch.2.2
      · rintro ⟨⟨se, hse, hp1, hp2⟩, hnc⟩
        refine ⟨se, hse, ?_⟩
        rw [memI_append]
        have hswp := (memI_sweepCovered se.2 (mergeIntervals cov) se.1 p hm1 hm2).mpr
          ⟨hp1, hp2, by rw [memI_mergeIntervals]; exact hnc⟩
        rcases hswp with h | h
        · exact Or.inl h
        · refine Or.inr ?_
          rw [if_pos (by omega), memI_singleton]
          exact h

theorem subtractIntervals_struct (G P : Int → Prop) (ints cov : List (Int × Int))
    (hi : ∀ se ∈ ints, se.1 < se.2)
    (hcov : ∀ se ∈ cov, se.1 < se.2)
    (hipw : List.Pairwise (fun a b : Int × Int => a.2 < b.1) ints)
    (hiGP : ∀ se ∈ ints, G se.1 ∧ P se.2)
    (hcGP : ∀ se ∈ cov, G se.2 ∧ P se.1) :
    (∀ se ∈ subtractIntervals ints cov,
        se.1 < se.2 ∧ G se.1 ∧ P se.2 ∧ ∃ se0 ∈ ints, se0.1 ≤ se.1 ∧ se.2 ≤ se0.2) ∧
      List.Pairwise (fun a b : Int × Int => a.2 ≤ b.1) (subtractIntervals ints cov) := by
  unfold subtractIntervals
  by_cases hie : ints = []
  · rw [if_pos hie]
    exact ⟨fun se hse => absurd hse (List.not_mem_nil se), List.Pairwise.nil⟩
  · rw [if_neg hie]
    by_cases hc : cov = []
    · rw [if_pos hc]
      refine ⟨fun se hse => ⟨hi se hse, (hiGP se hse).1, (hiGP se hse).2,
        se, hse, le_refl _, le_refl _⟩, hipw.imp ?_⟩
      intro a b hab
      omega
    · rw [if_neg hc]
      dsimp only
      obtain ⟨hm1, hm2⟩ := mergeIntervals_struct cov hcov
      have hmGP : ∀ se ∈ mergeIntervals cov, G se.2 ∧ P se.1 := by
        intro se hse
        have := mergeIntervals_pred G P cov (fun x hx => ⟨(hcGP x hx).2, (hcGP x hx).1⟩) se hse
        exact ⟨this.2, this.1⟩
      have hone : ∀ se0 : Int × Int, se0 ∈ ints →
          ∀ se ∈ (sweepCovered se0.2 se0.1 (mergeIntervals cov)).1 ++
            (if (sweepCovered se0.2 se0.1 (mergeIntervals cov)).2 < se0.2 then
              [((sweepCovered se0.2 se0.1 (mergeIntervals cov)).2, se0.2)] else []),
          se.1 < se.2 ∧ G se.1 ∧ P se.2 ∧ se0.1 ≤ se.1 ∧ se.2 ≤ se0.2 := by
        intro se0 hse0 se hse
        obtain ⟨sw1, sw2, sw3, _, _⟩ := sweepCovered_struct se0.2 G P (mergeIntervals cov)
          se0.1 hm1 (hiGP se0 hse0).1 hmGP
        rcases List.mem_append.mp hse with h | h
        · obtain ⟨ha, hb, hcb, hd, he⟩ := sw1 se h
          exact ⟨hb, hd, he, ha, hcb⟩
        · by_cases ht : (sweepCovered se0.2 se0.1 (mergeIntervals cov)).2 < se0.2
          · rw [if_pos ht, List.mem_singleton] at h
            rw [h]
            exact ⟨ht, sw3, (hiGP se0 hse0).2, sw2, le_refl _⟩
          · rw [if_neg ht] at h
            exact absurd h (List.not_mem_nil se)
      constructor
      · intro se hse
        obtain ⟨se0, hse0, hmem⟩ := List.mem_flatMap.mp hse
        obtain ⟨ha, hb, hcb, hd, he⟩ := hone se0 hse0 se hmem
        exact ⟨ha, hb, hcb, se0, hse0, hd, he⟩
      · rw [List.pairwise_flatMap]
        constructor
        · intro se0 hse0
          obtain ⟨sw1, sw2, _, sw4, sw5⟩ := sweepCovered_struct se0.2 G P (mergeIntervals cov)
            se0.1 hm1 (hiGP se0 hse0).1 hmGP
          rw [List.pairwise_append]
          refine ⟨sw4, ?_, ?_⟩
          · by_cases ht : (sweepCovered se0.2 se0.1 (mergeIntervals cov)).2 < se0.2
            · rw [if_pos ht]
              exact List.pairwise_singleton _ _
            · rw [if_neg ht]
              exact List.Pairwise.nil
          · intro a ha b hb
            by_cases ht : (sweepCovered se0.2 se0.1 (mergeIntervals cov)).2 < se0.2
            · rw [if_pos ht, List.mem_singleton] at hb
              rw [hb]
              exact sw5 a ha
            · rw [if_neg ht] at hb
              exact absurd hb (List.not_mem_nil b)
        · refine hipw.imp_of_mem ?_
          intro a b hma hmb hab x hx y hy
          obtain ⟨_, _, _, _, hx2⟩ := hone a hma x hx
          obtain ⟨_, _, _, hy1, _⟩ := hone b hmb y hy
          omega

/-! ## Candidate intervals: structure and pointwise meaning -/

theorem mergeIntervals_props (R Q : Int → Prop) (cands : List (Int × Int))
    (h : ∀ se ∈ cands, se.1 < se.2 ∧ R se.1 ∧ Q se.2) :
    (∀ se ∈ mergeIntervals cands, se.1 < se.2 ∧ R se.1 ∧ Q se.2) ∧
      List.Pairwise (fun a b : Int × Int => a.2 < b.1) (mergeIntervals cands) := by
  obtain ⟨h1, h2⟩ := mergeIntervals_struct cands (fun se hse => (h se hse).1)
  have h3 := mergeIntervals_pred Q R cands (fun se hse => ⟨(h se hse).2.1, (h se hse).2.2⟩)
  exact ⟨fun se hse => ⟨h1 se hse, (h3 se hse).1, (h3 se hse).2⟩, h2⟩

theorem mem_dayIntervalsLocal_none (dayStart nextDayStart : Int) (se : Int × Int) :
    se ∈ dayIntervalsLocal dayStart nextDayStart none ↔ se = (dayStart, nextDayStart) := by
  unfold dayIntervalsLocal
  simp

theorem mem_dayIntervalsLocal_some (dayStart nextDayStart s e : Int) (se : Int × Int) :
    se ∈ dayIntervalsLocal dayStart nextDayStart (some (s, e)) ↔
      (s = e ∧ se = (dayStart, nextDayStart)) ∨
      (s < e ∧ se = (dayStart + s * 60, dayStart + e * 60)) ∨
      (e < s ∧ (se = (dayStart, dayStart + e * 60) ∨
        se = (dayStart + s * 60, nextDayStart))) := by
  unfold dayIntervalsLocal
  dsimp only
  by_cases h1 : s = e
  · rw [if_pos h1]
    have h2 : ¬ s < e := by omega
    have h3 : ¬ e < s := by omega
    simp [h1, h2, h3]
  · rw [if_neg h1]
    by_cases h2 : s < e
    · rw [if_pos h2]
      have h3 : ¬ e < s := by omega
      simp [h1, h2, h3]
    · have h3 : e < s := by omega
      simp [h1, h2, h3]

theorem localDay_mono (off : Int) {a b : Int} (h : a ≤ b) :
    localDay a off ≤ localDay b off := by
  unfold localDay localSeconds
  omega

theorem inTimeWindow_iff (p off s e d : Int) (hd : localDay p off = d) :
    inTimeWindow p off s e = true ↔
      (s = e ∨
        (s < e ∧ dayStartAbs d off + s * 60 ≤ p ∧ p < dayStartAbs d off + e * 60) ∨
        (e < s ∧ (dayStartAbs d off + s * 60 ≤ p ∨ p < dayStartAbs d off + e * 60))) := by
  unfold localDay localSeconds at hd
  unfold inTimeWindow minuteOfDay localSeconds dayStartAbs
  by_cases h1 : s = e
  · rw [if_pos h1]
    simp [h1]
  · rw [if_neg h1]
    by_cases h2 : s < e
    · rw [if_pos h2]
      simp only [decide_eq_true_eq]
      constructor
      · rintro ⟨h3, h4⟩
        exact Or.inr (Or.inl ⟨h2, by omega, by omega⟩)
      · rintro (h | ⟨_, h3, h4⟩ | ⟨h3, _⟩)
        · exact absurd h h1
        · constructor <;> omega
        · omega
    · rw [if_neg h2]
      simp only [decide_eq_true_eq]
      constructor
      · intro h
        refine Or.inr (Or.inr ⟨by omega, ?_⟩)
        rcases h with h | h
        · exact Or.inl (by omega)
        · exact Or.inr (by omega)
      · rintro (h | ⟨h3, _⟩ | ⟨_, h3⟩)
        · exact absurd h h1
        · omega
        · rcases h3 with h3 | h3
          · exact Or.inl (by omega)
          · exact Or.inr (by omega)

theorem memI_clipped_pieces (entry exitT p dayStart nextDayStart : Int)
    (w : Option (Int × Int)) :
    memI p ((dayIntervalsLocal dayStart nextDayStart w).filterMap
        (fun se => if max se.1 entry ≥ min se.2 exitT then none
          else some (max se.1 entry, min se.2 exitT))) ↔
      (entry ≤ p ∧ p < exitT ∧ ∃ se0 ∈ dayIntervalsLocal dayStart nextDayStart w,
        se0.1 ≤ p ∧ p < se0.2) := by
  unfold memI
  constructor
  · rintro ⟨se, hse, h1, h2⟩
    rw [List.mem_filterMap] at hse
    obtain ⟨se0, hse0, hf⟩ := hse
    split at hf
    · exact Option.noConfusion hf
    · injection hf with hf
      rw [← hf] at h1 h2
      dsimp only at h1 h2
      exact ⟨le_trans (le_max_right _ _) h1, lt_of_lt_of_le h2 (min_le_right _ _),
        se0, hse0, le_trans (le_max_left _ _) h1, lt_of_lt_of_le h2 (min_le_left _ _)⟩
  · rintro ⟨he, hx, se0, hse0, h1, h2⟩
    refine ⟨(max se0.1 entry, min se0.2 exitT), ?_, by dsimp only; omega, by dsimp only; omega⟩
    rw [List.mem_filterMap]
    exact ⟨se0, hse0, by rw [if_neg (by omega)]⟩

theorem day_of_piece (p dayStart : Int) (w : Option (Int × Int))
    (hwb : ∀ sw, w = some sw → 0 ≤ sw.1 ∧ sw.1 ≤ 1440 ∧ 0 ≤ sw.2 ∧ sw.2 ≤ 1440)
    (se0 : Int × Int) (hse0 : se0 ∈ dayIntervalsLocal dayStart (dayStart + 86400) w)
    (h1 : se0.1 ≤ p) (h2 : p < se0.2) :
    dayStart ≤ p ∧ p < dayStart + 86400 := by
  rcases w with _ | sw
  · rw [mem_dayIntervalsLocal_none] at hse0
    rw [hse0] at h1 h2
    exact ⟨h1, h2⟩
  · obtain ⟨hb1, hb2, hb3, hb4⟩ := hwb sw rfl
    obtain ⟨s, e⟩ := sw
    dsimp only at hb1 hb2 hb3 hb4
    rw [mem_dayIntervalsLocal_some] at hse0
    rcases hse0 with ⟨hq, rfl⟩ | ⟨hq, rfl⟩ | ⟨hq, rfl | rfl⟩ <;> dsimp only at h1 h2 <;>
      constructor <;> omega

theorem buildSegmentCandidateIntervals_struct (seg : SegmentE) (entry exitT : Int) :
    (∀ se ∈ buildSegmentCandidateIntervals seg entry exitT,
        se.1 < se.2 ∧ (entry ≤ se.1 ∧ (60 ∣ entry → 60 ∣ se.1)) ∧
          (se.2 ≤ exitT ∧ (60 ∣ entry → (60 ∣ se.2 ∨ se.2 = exitT)))) ∧
      List.Pairwise (fun a b : Int × Int => a.2 < b.1)
        (buildSegmentCandidateIntervals seg entry exitT) := by
  unfold buildSegmentCandidateIntervals
  dsimp only
  refine mergeIntervals_props (fun x => entry ≤ x ∧ (60 ∣ entry → 60 ∣ x))
    (fun x => x ≤ exitT ∧ (60 ∣ entry → (60 ∣ x ∨ x = exitT))) _ ?_
  intro se hse
  rw [List.mem_flatMap] at hse
  obtain ⟨d, hd, hse⟩ := hse
  split at hse
  · exact absurd hse (List.not_mem_nil se)
  · rw [List.mem_filterMap] at hse
    obtain ⟨se0, hse0, hf⟩ := hse
    split at hf
    · exact Option.noConfusion hf
    · rename_i hguard
      injection hf with hf
      have hdiv0 : 60 ∣ se0.1 ∧ 60 ∣ se0.2 := by
        have hds : (60:Int) ∣ dayStartAbs d (resolveWindowTimezone seg) := by
          unfold dayStartAbs
          omega
        rcases hw : Option.map (fun w => (w.startMin, w.endMin)) seg.timeWindow with _ | sw
        · rw [hw] at hse0
          rw [mem_dayIntervalsLocal_none] at hse0
          rw [hse0]
          constructor <;> [exact hds; · show (60:Int) ∣ _ + 86400; omega]
        · rw [hw] at hse0
          obtain ⟨s, e⟩ := sw
          rw [mem_dayIntervalsLocal_some] at hse0
          rcases hse0 with ⟨hq, rfl⟩ | ⟨hq, rfl⟩ | ⟨hq, rfl | rfl⟩ <;>
            constructor <;> dsimp only <;> omega
      rw [← hf]
      dsimp only
      refine ⟨by omega, ⟨le_max_right _ _, fun h60 => ?_⟩, min_le_right _ _, fun h60 => ?_⟩
      · rcases max_choice se0.1 entry with h | h <;> rw [h]
        · exact hdiv0.1
        · exact h60
      · rcases min_choice se0.2 exitT with h | h <;> rw [h]
        · exact Or.inl hdiv0.2
        · exact Or.inr rfl

theorem memI_buildSegmentCandidateIntervals (seg : SegmentE) (entry exitT p : Int)
    (hwf : ∀ w, seg.timeWindow = some w →
      0 ≤ w.startMin ∧ w.startMin ≤ 1440 ∧ 0 ≤ w.endMin ∧ w.endMin ≤ 1440)
    (hpe : entry ≤ p) (hpx : p < exitT) :
    memI p (buildSegmentCandidateIntervals seg entry exitT) ↔ itemMatches p seg = true := by
  unfold buildSegmentCandidateIntervals itemMatches
  dsimp only
  rw [memI_mergeIntervals, memI_flatMap]
  have hwb : ∀ sw, Option.map (fun w => (w.startMin, w.endMin)) seg.timeWindow = some sw →
      0 ≤ sw.1 ∧ sw.1 ≤ 1440 ∧ 0 ≤ sw.2 ∧ sw.2 ≤ 1440 := by
    intro sw hsw
    rcases htw : seg.timeWindow with _ | w
    · rw [htw] at hsw
      exact Option.noConfusion hsw
    · rw [htw] at hsw
      injection hsw with hsw
      obtain ⟨hb1, hb2, hb3, hb4⟩ := hwf w htw
      rw [← hsw]
      exact ⟨hb1, hb2, hb3, hb4⟩
  constructor
  · rintro ⟨d, hd, hmem⟩
    split at hmem
    · exact absurd hmem (memI_nil p)
    · rename_i hwkd
      rw [memI_clipped_pieces] at hmem
      obtain ⟨_, _, se0, hse0, h1, h2⟩ := hmem
      have hday := day_of_piece p (dayStartAbs d (resolveWindowTimezone seg)) _ hwb se0 hse0 h1 h2
      have hdeq : localDay p (resolveWindowTimezone seg) = d := by
        unfold dayStartAbs at hday
        unfold localDay localSeconds
        omega
      rw [hdeq, if_neg hwkd]
      rcases htw : seg.timeWindow with _ | w
      · rfl
      · rw [htw] at hse0
        dsimp only [Option.map] at hse0
        rw [inTimeWindow_iff p (resolveWindowTimezone seg) w.startMin w.endMin d hdeq]
        rw [mem_dayIntervalsLocal_some] at hse0
        rcases hse0 with ⟨hq, rfl⟩ | ⟨hq, rfl⟩ | ⟨hq, rfl | rfl⟩ <;> dsimp only at h1 h2
        · exact Or.inl hq
        · exact Or.inr (Or.inl ⟨hq, h1, h2⟩)
        · exact Or.inr (Or.inr ⟨hq, Or.inr h2⟩)
        · exact Or.inr (Or.inr ⟨hq, Or.inl h1⟩)
  · intro hmatch
    split at hmatch
    · exact absurd hmatch (by simp)
    · rename_i hwk
      have hds : dayStartAbs (localDay p (resolveWindowTimezone seg))
          (resolveWindowTimezone seg) ≤ p ∧
          p < dayStartAbs (localDay p (resolveWindowTimezone seg))
            (resolveWindowTimezone seg) + 86400 := by
        unfold dayStartAbs localDay localSeconds
        constructor <;> omega
      refine ⟨localDay p (resolveWindowTimezone seg), ?_, ?_⟩
      · rw [List.mem_map]
        have hm1 := localDay_mono (resolveWindowTimezone seg) hpe
        have hm2 := localDay_mono (resolveWindowTimezone seg) (le_of_lt hpx)
        refine ⟨(localDay p (resolveWindowTimezone seg) -
          localDay entry (resolveWindowTimezone seg)).toNat, ?_, by omega⟩
        rw [List.mem_range]
        omega
      · rw [if_neg hwk, memI_clipped_pieces]
        refine ⟨hpe, hpx, ?_⟩
        rcases htw : seg.timeWindow with _ | w
        · dsimp only [Option.map]
          refine ⟨(dayStartAbs (localDay p (resolveWindowTimezone seg))
              (resolveWindowTimezone seg),
            dayStartAbs (localDay p (resolveWindowTimezone seg))
              (resolveWindowTimezone seg) + 86400), ?_, hds.1, hds.2⟩
          rw [mem_dayIntervalsLocal_none]
        · rw [htw] at hmatch
          dsimp only [Option.map]
          dsimp only at hmatch
          rw [inTimeWindow_iff p (resolveWindowTimezone seg) w.startMin w.endMin
            (localDay p (resolveWindowTimezone seg)) rfl] at hmatch
          rcases hmatch with h | ⟨h1, h2, h3⟩ | ⟨h1, h2⟩
          · refine ⟨(dayStartAbs (localDay p (resolveWindowTimezone seg))
                (resolveWindowTimezone seg),
              dayStartAbs (localDay p (resolveWindowTimezone seg))
                (resolveWindowTimezone seg) + 86400), ?_, hds.1, hds.2⟩
            rw [mem_dayIntervalsLocal_some]
            exact Or.inl ⟨h, rfl⟩
          · refine ⟨(dayStartAbs (localDay p (resolveWindowTimezone seg))
                (resolveWindowTimezone seg) + w.startMin * 60,
              dayStartAbs (localDay p (resolveWindowTimezone seg))
                (resolveWindowTimezone seg) + w.endMin * 60), ?_, by omega, by omega⟩
            rw [mem_dayIntervalsLocal_some]
            exact Or.inr (Or.inl ⟨h1, rfl⟩)
          · rcases h2 with h2 | h2
            · refine ⟨(dayStartAbs (localDay p (resolveWindowTimezone seg))
                  (resolveWindowTimezone seg) + w.startMin * 60,
                dayStartAbs (localDay p (resolveWindowTimezone seg))
                  (resolveWindowTimezone seg) + 86400), ?_, by omega, by omega⟩
              rw [mem_dayIntervalsLocal_some]
              exact Or.inr (Or.inr ⟨h1, Or.inr rfl⟩)
            · refine ⟨(dayStartAbs (localDay p (resolveWindowTimezone seg))
                  (resolveWindowTimezone seg),
                dayStartAbs (localDay p (resolveWindowTimezone seg))
                  (resolveWindowTimezone seg) + w.endMin * 60), ?_, by omega, by omega⟩
              rw [mem_dayIntervalsLocal_some]
              exact Or.inr (Or.inr ⟨h1, Or.inl rfl⟩)

/-! ## Minute points of interval lists -/

theorem mem_pointsOfIntervals (entry exitT p : Int) (active : List (Int × Int)) :
    p ∈ pointsOfIntervals entry exitT active ↔
      memI p active ∧ p < exitT ∧ ∃ j : ℤ, 0 ≤ j ∧ p = entry + 60 * j := by
  unfold pointsOfIntervals memI
  rw [List.mem_flatMap]
  constructor
  · rintro ⟨se, hse, hp⟩
    rw [mem_iterMinutePoints] at hp
    obtain ⟨hlt, j, hj0, hpj, hjs, hje, hjoe⟩ := hp
    exact ⟨⟨se, hse, hjs, hje⟩, hjoe, j, hj0, hpj⟩
  · rintro ⟨⟨se, hse, h1, h2⟩, hoe, j, hj0, hpj⟩
    refine ⟨se, hse, ?_⟩
    rw [mem_iterMinutePoints]
    exact ⟨by omega, j, hj0, hpj, h1, h2, hoe⟩

theorem sorted_pointsOfIntervals (entry exitT : Int) (active : List (Int × Int))
    (hsep : List.Pairwise (fun a b : Int × Int => a.2 ≤ b.1) active) :
    (pointsOfIntervals entry exitT active).Pairwise (· < ·) := by
  unfold pointsOfIntervals
  rw [List.pairwise_flatMap]
  refine ⟨fun se _ => pairwise_lt_iterMinutePoints entry exitT se.1 se.2, ?_⟩
  refine hsep.imp_of_mem ?_
  intro a b hma hmb hab x hx y hy
  rw [mem_iterMinutePoints] at hx hy
  obtain ⟨hq1, jx, hq2, hq3, hq4, hxe, hq5⟩ := hx
  obtain ⟨hr1, jy, hr2, hr3, hys, hr4, hr5⟩ := hy
  omega

theorem pointsOfIntervals_ne (entry exitT : Int) (active : List (Int × Int))
    (hdiv : 60 ∣ entry) (hne : active ≠ [])
    (hmem : ∀ se ∈ active, se.1 < se.2 ∧ 60 ∣ se.1 ∧ entry ≤ se.1 ∧ se.2 ≤ exitT) :
    pointsOfIntervals entry exitT active ≠ [] := by
  rcases active with _ | ⟨se, rest⟩
  · exact absurd rfl hne
  obtain ⟨h1, h2, h3, h4⟩ := hmem se (List.mem_cons_self _ _)
  have hm : se.1 ∈ pointsOfIntervals entry exitT (se :: rest) := by
    rw [mem_pointsOfIntervals]
    unfold memI
    refine ⟨⟨se, List.mem_cons_self _ _, le_refl _, h1⟩, by omega,
      (se.1 - entry) / 60, by omega, by omega⟩
  intro hempty
  rw [hempty] at hm
  exact absurd hm (List.not_mem_nil _)

theorem mem_gridPoints (entry exitT p : Int) :
    p ∈ gridPoints entry exitT ↔ p < exitT ∧ ∃ j : ℤ, 0 ≤ j ∧ p = entry + 60 * j := by
  unfold gridPoints
  simp only [List.mem_map, List.mem_range]
  constructor
  · rintro ⟨k, hk, rfl⟩
    have h1 : (k : ℤ) < ceilDiv60 (exitT - entry) := by omega
    rw [lt_ceilDiv60_iff] at h1
    exact ⟨by omega, (k : ℤ), by omega, rfl⟩
  · rintro ⟨hx, j, hj0, rfl⟩
    have h1 : j < ceilDiv60 (exitT - entry) := (lt_ceilDiv60_iff _ _).mpr (by omega)
    refine ⟨j.toNat, by omega, by omega⟩

theorem pairwise_lt_gridPoints (entry exitT : Int) :
    (gridPoints entry exitT).Pairwise (· < ·) := by
  unfold gridPoints
  exact List.Pairwise.map _ (fun i j hij => by omega) (List.pairwise_lt_range _)

theorem eq_of_sorted_lt_of_mem_iff {l1 l2 : List Int}
    (h1 : l1.Pairwise (· < ·)) (h2 : l2.Pairwise (· < ·))
    (hm : ∀ p : Int, p ∈ l1 ↔ p ∈ l2) : l1 = l2 := by
  haveI : IsAntisymm Int (· < ·) := ⟨fun a b hab hba => absurd hba (lt_asymm hab)⟩
  have hperm : l1.Perm l2 := by
    rw [List.perm_ext_iff_of_nodup (h1.imp ne_of_lt) (h2.imp ne_of_lt)]
    exact hm
  exact List.eq_of_perm_of_sorted hperm h1 h2

/-! ## The per-segment active intervals of the window collector -/

theorem activeIntervalsList_facts (entry exitT : Int) :
    ∀ (segs : List SegmentE) (covered : List (Int × Int)),
      (∀ se ∈ covered, se.1 < se.2) →
      (∀ l ∈ activeIntervalsList segs entry exitT covered,
          (∀ se ∈ l, se.1 < se.2) ∧
            List.Pairwise (fun a b : Int × Int => a.2 ≤ b.1) l ∧
            (∀ p : Int, memI p l → ¬ memI p covered)) ∧
        List.Pairwise (fun l1 l2 => ∀ p : Int, memI p l1 → ¬ memI p l2)
          (activeIntervalsList segs entry exitT covered)
  | [], covered, hcov => by
    simp only [activeIntervalsList]
    exact ⟨fun l hl => absurd hl (List.not_mem_nil l), List.Pairwise.nil⟩
  | seg :: rest, covered, hcov => by
    obtain ⟨hc1, hc2⟩ := buildSegmentCandidateIntervals_struct seg entry exitT
    simp only [activeIntervalsList]
    set A := subtractIntervals (buildSegmentCandidateIntervals seg entry exitT) covered with hA
    obtain ⟨ha1, ha2⟩ := subtractIntervals_struct (fun _ => True) (fun _ => True)
      (buildSegmentCandidateIntervals seg entry exitT) covered
      (fun se hse => (hc1 se hse).1) hcov hc2
      (fun _ _ => ⟨trivial, trivial⟩) (fun _ _ => ⟨trivial, trivial⟩)
    have hAne : ∀ se ∈ A, se.1 < se.2 := fun se hse => (ha1 se hse).1
    have hAdisj : ∀ p : Int, memI p A → ¬ memI p covered := by
      intro p hp
      rw [hA, memI_subtractIntervals _ _ _ hcov] at hp
      exact hp.2
    by_cases hemp : A = []
    · rw [if_pos hemp]
      obtain ⟨ih1, ih2⟩ := activeIntervalsList_facts entry exitT rest covered hcov
      refine ⟨?_, ?_⟩
      · intro l hl
        rcases List.mem_cons.mp hl with h | h
        · rw [h]
          exact ⟨hAne, ha2, hAdisj⟩
        · exact ih1 l h
      · rw [List.pairwise_cons]
        refine ⟨?_, ih2⟩
        intro l hl p hp
        rw [hemp] at hp
        exact absurd hp (memI_nil p)
    · rw [if_neg hemp]
      have hcov1 : ∀ se ∈ mergeIntervals (covered ++ A), se.1 < se.2 := by
        refine (mergeIntervals_struct _ ?_).1
        intro se hse
        rcases List.mem_append.mp hse with h | h
        · exact hcov se h
        · exact hAne se h
      obtain ⟨ih1, ih2⟩ := activeIntervalsList_facts entry exitT rest
        (mergeIntervals (covered ++ A)) hcov1
      have hsub : ∀ p : Int, memI p A → memI p (mergeIntervals (covered ++ A)) := by
        intro p hp
        rw [memI_mergeIntervals, memI_append]
        exact Or.inr hp
      have hsub2 : ∀ p : Int, memI p covered → memI p (mergeIntervals (covered ++ A)) := by
        intro p hp
        rw [memI_mergeIntervals, memI_append]
        exact Or.inl hp
      refine ⟨?_, ?_⟩
      · intro l hl
        rcases List.mem_cons.mp hl with h | h
        · rw [h]
          exact ⟨hAne, ha2, hAdisj⟩
        · obtain ⟨f1, f2, f3⟩ := ih1 l h
          exact ⟨f1, f2, fun p hp hpc => f3 p hp (hsub2 p hpc)⟩
      · rw [List.pairwise_cons]
        refine ⟨?_, ih2⟩
        intro l hl p hpA hpl
        exact (ih1 l hl).2.2 p hpl (hsub p hpA)

theorem activeIntervalsList_points_eq (entry exitT : Int) (hdiv : 60 ∣ entry) :
    ∀ (segs : List SegmentE) (covered : List (Int × Int)) (prior : Int → Bool),
      (∀ seg ∈ segs, ∀ w, seg.timeWindow = some w →
        0 ≤ w.startMin ∧ w.startMin ≤ 1440 ∧ 0 ≤ w.endMin ∧ w.endMin ≤ 1440) →
      (∀ se ∈ covered, se.1 < se.2 ∧ 60 ∣ se.1 ∧
        (60 ∣ se.2 ∨ se.2 = exitT) ∧ se.2 ≤ exitT ∧ entry ≤ se.1) →
      (∀ p : Int, entry ≤ p → p < exitT → ((prior p = true) ↔ memI p covered)) →
      (activeIntervalsList segs entry exitT covered).map (pointsOfIntervals entry exitT) =
        scanPointsList entry exitT prior segs
  | [], covered, prior, _, _, _ => by
    simp only [activeIntervalsList, scanPointsList, List.map_nil]
  | seg :: rest, covered, prior, hwf, hcov, hprior => by
    obtain ⟨hc1, hc2⟩ := buildSegmentCandidateIntervals_struct seg entry exitT
    have hcovne : ∀ se ∈ covered, se.1 < se.2 := fun se hse => (hcov se hse).1
    simp only [activeIntervalsList, scanPointsList, List.map_cons]
    set A := subtractIntervals (buildSegmentCandidateIntervals seg entry exitT) covered with hA
    obtain ⟨ha1, ha2⟩ := subtractIntervals_struct
      (fun x => (60 ∣ x ∨ x = exitT) ∧ entry ≤ x)
      (fun x => (60 ∣ x ∨ x = exitT) ∧ x ≤ exitT)
      (buildSegmentCandidateIntervals seg entry exitT) covered
      (fun se hse => (hc1 se hse).1) hcovne hc2
      (fun se hse => ⟨⟨Or.inl ((hc1 se hse).2.1.2 hdiv), (hc1 se hse).2.1.1⟩,
        (hc1 se hse).2.2.2 hdiv, (hc1 se hse).2.2.1⟩)
      (fun se hse => by
        obtain ⟨g1, g2, g3, g4, g5⟩ := hcov se hse
        exact ⟨⟨g3, by omega⟩, Or.inl g2, by omega⟩)
    have hAprops : ∀ se ∈ A, se.1 < se.2 ∧ 60 ∣ se.1 ∧
        (60 ∣ se.2 ∨ se.2 = exitT) ∧ se.2 ≤ exitT ∧ entry ≤ se.1 := by
      intro se hse
      obtain ⟨g1, ⟨g2, g3⟩, ⟨g4, g5⟩, g6⟩ := ha1 se hse
      refine ⟨g1, ?_, g4, g5, g3⟩
      rcases g2 with g2 | g2
      · exact g2
      · omega
    have hhead : pointsOfIntervals entry exitT A =
        List.filter (fun p => itemMatches p seg && !prior p) (gridPoints entry exitT) := by
      refine eq_of_sorted_lt_of_mem_iff (sorted_pointsOfIntervals entry exitT A ha2)
        ((pairwise_lt_gridPoints entry exitT).filter _) ?_
      intro p
      rw [mem_pointsOfIntervals, List.mem_filter, mem_gridPoints]
      constructor
      · rintro ⟨hmA, hpx, j, hj0, hpj⟩
        have hpe : entry ≤ p := by omega
        rw [hA, memI_subtractIntervals _ _ _ hcovne] at hmA
        obtain ⟨hmc, hmcov⟩ := hmA
        rw [memI_buildSegmentCandidateIntervals seg entry exitT p
          (hwf seg (List.mem_cons_self _ _)) hpe hpx] at hmc
        refine ⟨⟨hpx, j, hj0, hpj⟩, ?_⟩
        rw [Bool.and_eq_true, Bool.not_eq_true']
        refine ⟨hmc, ?_⟩
        cases hpr : prior p
        · rfl
        · exact absurd ((hprior p hpe hpx).mp hpr) hmcov
      · rintro ⟨⟨hpx, j, hj0, hpj⟩, hflt⟩
        rw [Bool.and_eq_true, Bool.not_eq_true'] at hflt
        have hpe : entry ≤ p := by omega
        refine ⟨?_, hpx, j, hj0, hpj⟩
        rw [hA, memI_subtractIntervals _ _ _ hcovne]
        rw [memI_buildSegmentCandidateIntervals seg entry exitT p
          (hwf seg (List.mem_cons_self _ _)) hpe hpx]
        refine ⟨hflt.1, fun hc => ?_⟩
        rw [← hprior p hpe hpx, hflt.2] at hc
        exact Bool.noConfusion hc
    rw [hhead]
    congr 1
    have hwfr : ∀ seg2 ∈ rest, ∀ w, seg2.timeWindow = some w →
        0 ≤ w.startMin ∧ w.startMin ≤ 1440 ∧ 0 ≤ w.endMin ∧ w.endMin ≤ 1440 :=
      fun seg2 hseg2 => hwf seg2 (List.mem_cons_of_mem _ hseg2)
    by_cases hemp : A = []
    · rw [if_pos hemp]
      refine activeIntervalsList_points_eq entry exitT hdiv rest covered _ hwfr hcov ?_
      intro p hpe hpx
      rw [Bool.or_eq_true, hprior p hpe hpx]
      constructor
      · rintro (h | h)
        · exact h
        · by_contra hnc
          have hmm : memI p A := by
            rw [hA, memI_subtractIntervals _ _ _ hcovne]
            rw [memI_buildSegmentCandidateIntervals seg entry exitT p
              (hwf seg (List.mem_cons_self _ _)) hpe hpx]
            exact ⟨h, hnc⟩
          rw [hemp] at hmm
          exact absurd hmm (memI_nil p)
      · exact Or.inl
    · rw [if_neg hemp]
      have hm0 : ∀ se ∈ covered ++ A, se.1 < se.2 ∧
          (60 ∣ se.1 ∧ entry ≤ se.1) ∧ ((60 ∣ se.2 ∨ se.2 = exitT) ∧ se.2 ≤ exitT) := by
        intro se hse
        rcases List.mem_append.mp hse with h | h
        · obtain ⟨g1, g2, g3, g4, g5⟩ := hcov se h
          exact ⟨g1, ⟨g2, g5⟩, g3, g4⟩
        · obtain ⟨g1, g2, g3, g4, g5⟩ := hAprops se h
          exact ⟨g1, ⟨g2, g5⟩, g3, g4⟩
      obtain ⟨hmg1, hmg2⟩ := mergeIntervals_props
        (fun x => 60 ∣ x ∧ entry ≤ x)
        (fun x => (60 ∣ x ∨ x = exitT) ∧ x ≤ exitT)
        (covered ++ A) hm0
      refine activeIntervalsList_points_eq entry exitT hdiv rest
        (mergeIntervals (covered ++ A)) _ hwfr ?_ ?_
      · intro se hse
        obtain ⟨g1, ⟨g2, g3⟩, g4, g5⟩ := hmg1 se hse
        exact ⟨g1, g2, g4, g5, g3⟩
      · intro p hpe hpx
        rw [Bool.or_eq_true, hprior p hpe hpx, memI_mergeIntervals, memI_append]
        constructor
        · rintro (h | h)
          · exact Or.inl h
          · by_cases hc : memI p covered
            · exact Or.inl hc
            · refine Or.inr ?_
              rw [hA, memI_subtractIntervals _ _ _ hcovne]
              rw [memI_buildSegmentCandidateIntervals seg entry exitT p
                (hwf seg (List.mem_cons_self _ _)) hpe hpx]
              exact ⟨h, hc⟩
        · rintro (h | h)
          · exact Or.inl h
          · refine Or.inr ?_
            rw [hA, memI_subtractIntervals _ _ _ hcovne] at h
            rw [← memI_buildSegmentCandidateIntervals seg entry exitT p
              (hwf seg (List.mem_cons_self _ _)) hpe hpx]
            exact h.1

/-! ## Lookup characterisation of the two collectors -/

theorem lookup_foldl_bumpInner_ne (off : Int) (k i : Nat) (hik : i ≠ k) :
    ∀ (pts : List Int) (m : List (Nat × List (Int × Nat))),
      (pts.foldl (fun dm p => bumpInner dm k (localDay p off)) m).lookup i = m.lookup i
  | [], m => rfl
  | p :: t, m => by
    rw [List.foldl_cons, lookup_foldl_bumpInner_ne off k i hik t _,
      lookup_bumpInner_ne _ _ _ _ hik]

theorem lookup_foldl_bumpInner_self (off : Int) (k : Nat) :
    ∀ (pts : List Int) (m : List (Nat × List (Int × Nat))),
      (pts.foldl (fun dm p => bumpInner dm k (localDay p off)) m).lookup k =
        (m.lookup k).map (fun l => dayFoldList off l pts)
  | [], m => by
    cases hl : m.lookup k <;> simp [dayFoldList, hl]
  | p :: t, m => by
    rw [List.foldl_cons, lookup_foldl_bumpInner_self off k t _, lookup_bumpInner_self]
    cases hl : m.lookup k <;> simp [dayFoldList, hl]

theorem enumFrom_fst_ge : ∀ (l : List SegmentE) (n : Nat), ∀ x ∈ l.enumFrom n, n ≤ x.1
  | [], _, x, hx => absurd hx (List.not_mem_nil x)
  | _ :: t, n, x, hx => by
    rw [List.enumFrom_cons] at hx
    rcases List.mem_cons.mp hx with h | h
    · rw [h]
    · have := enumFrom_fst_ge t (n + 1) x h
      omega

theorem collectSpec_lookup_ne (entry exitT : Int) :
    ∀ (segs : List (Nat × SegmentE)) (res : CollectResult) (covered : List (Int × Int))
      (i : Nat),
      (∀ iseg ∈ segs, i ≠ iseg.1) →
      (collectSpec entry exitT segs res covered).segMinutes.lookup i =
          res.segMinutes.lookup i ∧
        (collectSpec entry exitT segs res covered).segDayMinutes.lookup i =
          res.segDayMinutes.lookup i
  | [], _, _, _, _ => ⟨rfl, rfl⟩
  | iseg :: rest, res, covered, i, hne => by
    have hni : i ≠ iseg.1 := hne iseg (List.mem_cons_self _ _)
    have hnr : ∀ x ∈ rest, i ≠ x.1 := fun x hx => hne x (List.mem_cons_of_mem _ hx)
    simp only [collectSpec]
    by_cases hact :
        subtractIntervals (buildSegmentCandidateIntervals iseg.2 entry exitT) covered = []
    · rw [if_pos hact]
      exact collectSpec_lookup_ne entry exitT rest res covered i hnr
    · rw [if_neg hact]
      obtain ⟨h1, h2⟩ := collectSpec_lookup_ne entry exitT rest _ _ i hnr
      rw [h1, h2]
      constructor
      · exact lookup_addCount_ne _ _ _ _ hni
      · rw [lookup_foldl_bumpInner_ne _ _ _ hni, lookup_setdefaultDay_ne _ _ _ hni]

theorem collectSpec_lookup (entry exitT : Int) :
    ∀ (payload : List SegmentE) (n : Nat) (res : CollectResult) (covered : List (Int × Int))
      (i : Nat),
      (∀ k : Nat, n ≤ k → res.segMinutes.lookup k = none ∧ res.segDayMinutes.lookup k = none) →
      n ≤ i →
      (collectSpec entry exitT (payload.enumFrom n) res covered).segMinutes.lookup i =
        (if pointsOfIntervals entry exitT
            ((activeIntervalsList payload entry exitT covered).getD (i - n) []) = [] then
          none
        else some (pointsOfIntervals entry exitT
            ((activeIntervalsList payload entry exitT covered).getD (i - n) [])).length) ∧
      (collectSpec entry exitT (payload.enumFrom n) res covered).segDayMinutes.lookup i =
        (if (activeIntervalsList payload entry exitT covered).getD (i - n) [] = [] then
          none
        else some (dayFoldList (resolveWindowTimezone (payload.getD (i - n) default)) []
          (pointsOfIntervals entry exitT
            ((activeIntervalsList payload entry exitT covered).getD (i - n) []))))
  | [], n, res, covered, i, hfresh, hni => by
    simp only [List.enumFrom, collectSpec, activeIntervalsList, List.getD]
    simp only [pointsOfIntervals, List.flatMap_nil, if_pos rfl]
    exact hfresh i hni
  | seg :: rest, n, res, covered, i, hfresh, hni => by
    rw [List.enumFrom_cons]
    simp only [collectSpec, activeIntervalsList]
    set A := subtractIntervals (buildSegmentCandidateIntervals seg entry exitT) covered with hA
    by_cases hact : A = []
    · rw [if_pos hact, if_pos hact]
      rcases Nat.eq_or_lt_of_le hni with heq | hlt
      · subst heq
        obtain ⟨h1, h2⟩ := collectSpec_lookup_ne entry exitT (rest.enumFrom (n + 1))
          res covered n (fun x hx => by have := enumFrom_fst_ge rest (n + 1) x hx; omega)
        rw [h1, h2, Nat.sub_self]
        simp only [List.getD_cons_zero]
        rw [hact]
        simp only [pointsOfIntervals, List.flatMap_nil, if_pos rfl]
        exact hfresh n (le_refl n)
      · obtain ⟨h1, h2⟩ := collectSpec_lookup entry exitT rest (n + 1) res covered i
          (fun k hk => hfresh k (by omega)) hlt
        rw [h1, h2]
        have hsub : i - n = (i - (n + 1)) + 1 := by omega
        rw [hsub]
        simp only [List.getD_cons_succ]
        trivial
    · rw [if_neg hact, if_neg hact]
      rcases Nat.eq_or_lt_of_le hni with heq | hlt
      · subst heq
        obtain ⟨h1, h2⟩ := collectSpec_lookup_ne entry exitT (rest.enumFrom (n + 1)) _ _ n
          (fun x hx => by have := enumFrom_fst_ge rest (n + 1) x hx; omega)
        rw [h1, h2, Nat.sub_self]
        simp only [List.getD_cons_zero]
        obtain ⟨hf1, hf2⟩ := hfresh n (le_refl n)
        constructor
        · by_cases hpts : pointsOfIntervals entry exitT A = []
          · rw [if_pos hpts, hpts]
            simp only [List.length_nil]
            unfold addCount
            rw [if_pos rfl]
            exact hf1
          · rw [if_neg hpts]
            rw [lookup_addCount_self _ _ _ (by
              intro hlen
              exact hpts (List.length_eq_zero.mp hlen))]
            rw [hf1]
            simp
        · rw [if_neg hact]
          rw [lookup_foldl_bumpInner_self, lookup_setdefaultDay_self, hf2]
          simp
      · set R2 : CollectResult :=
          { segMinutes := addCount res.segMinutes n (pointsOfIntervals entry exitT A).length
            segDayMinutes := (pointsOfIntervals entry exitT A).foldl
              (fun dm p => bumpInner dm n (localDay p (resolveWindowTimezone seg)))
              (setdefaultDay res.segDayMinutes n) } with hR2
        have hfr2 : ∀ k : Nat, n + 1 ≤ k →
            R2.segMinutes.lookup k = none ∧ R2.segDayMinutes.lookup k = none := by
          intro k hk
          have hkn : k ≠ n := by omega
          obtain ⟨hf1, hf2⟩ := hfresh k (by omega)
          rw [hR2]
          dsimp only
          constructor
          · rw [lookup_addCount_ne _ _ _ _ hkn]
            exact hf1
          · rw [lookup_foldl_bumpInner_ne _ _ _ hkn, lookup_setdefaultDay_ne _ _ _ hkn]
            exact hf2
        obtain ⟨h1, h2⟩ := collectSpec_lookup entry exitT rest (n + 1) R2
          (mergeIntervals (covered ++ A)) i hfr2 hlt
        rw [h1, h2]
        have hsub : i - n = (i - (n + 1)) + 1 := by omega
        rw [hsub]
        simp only [List.getD_cons_succ]
        trivial

theorem collect_window_lookup (payload : List SegmentE) (entry exitT : Int) (i : Nat) :
    (collectSegmentMinutesByWindow payload entry exitT).segMinutes.lookup i =
      (if pointsOfIntervals entry exitT
          ((activeIntervalsList payload entry exitT []).getD i []) = [] then none
       else some (pointsOfIntervals entry exitT
          ((activeIntervalsList payload entry exitT []).getD i [])).length) ∧
    (collectSegmentMinutesByWindow payload entry exitT).segDayMinutes.lookup i =
      (if (activeIntervalsList payload entry exitT []).getD i [] = [] then none
       else some (dayFoldList (resolveWindowTimezone (payload.getD i default)) []
         (pointsOfIntervals entry exitT
           ((activeIntervalsList payload entry exitT []).getD i [])))) := by
  rw [collect_window_eq_spec]
  have h := collectSpec_lookup entry exitT payload 0
    { segMinutes := [], segDayMinutes := [] } [] i
    (fun k _ => ⟨rfl, rfl⟩) (Nat.zero_le i)
  rw [Nat.sub_zero] at h
  exact h

theorem scan_as_points_fold (payload : List SegmentE) (entry exitT : Int) :
    collectSegmentMinutesByScan payload entry exitT =
      (gridPoints entry exitT).foldl (scanStep payload)
        { segMinutes := [], segDayMinutes := [] } := by
  unfold collectSegmentMinutesByScan gridPoints scanStep
  rw [List.foldl_map]

theorem scan_fold_lookup (payload : List SegmentE) (i : Nat) :
    ∀ (pts : List Int) (res : CollectResult),
      ((pts.foldl (scanStep payload) res).segMinutes.lookup i =
        (if pts.filter (fun p => firstMatchIdx payload p = some i) = [] then
          res.segMinutes.lookup i
        else some ((res.segMinutes.lookup i).getD 0 +
          (pts.filter (fun p => firstMatchIdx payload p = some i)).length))) ∧
      ((pts.foldl (scanStep payload) res).segDayMinutes.lookup i =
        (if pts.filter (fun p => firstMatchIdx payload p = some i) = [] then
          res.segDayMinutes.lookup i
        else some (dayFoldList (resolveWindowTimezone (payload.getD i default))
          ((res.segDayMinutes.lookup i).getD [])
          (pts.filter (fun p => firstMatchIdx payload p = some i)))))
  | [], res => by
    constructor
    · rw [List.foldl_nil, List.filter_nil, if_pos rfl]
    · rw [List.foldl_nil, List.filter_nil, if_pos rfl]
  | p :: t, res => by
    rw [List.foldl_cons]
    by_cases hm : firstMatchIdx payload p = some i
    · have hfilter : (p :: t).filter (fun q => firstMatchIdx payload q = some i) =
          p :: t.filter (fun q => firstMatchIdx payload q = some i) := by
        rw [List.filter_cons, if_pos (by simp [hm])]
      rw [hfilter]
      have hstep : scanStep payload res p =
          { segMinutes := bump res.segMinutes i
            segDayMinutes := bumpInner (setdefaultDay res.segDayMinutes i) i
              (localDay p (resolveWindowTimezone (payload.getD i default))) } := by
        unfold scanStep
        rw [hm]
      rw [hstep]
      obtain ⟨ih1, ih2⟩ := scan_fold_lookup payload i t
        { segMinutes := bump res.segMinutes i
          segDayMinutes := bumpInner (setdefaultDay res.segDayMinutes i) i
            (localDay p (resolveWindowTimezone (payload.getD i default))) }
      rw [ih1, ih2]
      dsimp only
      simp only [lookup_bump_self, lookup_bumpInner_self, lookup_setdefaultDay_self,
        Option.map_some, Option.getD_some]
      constructor
      · by_cases hft : t.filter (fun q => firstMatchIdx payload q = some i) = []
        · rw [if_pos hft, if_neg (List.cons_ne_nil _ _), hft]
          simp
        · rw [if_neg hft, if_neg (List.cons_ne_nil _ _)]
          simp only [List.length_cons]
          congr 1
          omega
      · by_cases hft : t.filter (fun q => firstMatchIdx payload q = some i) = []
        · rw [if_pos hft, if_neg (List.cons_ne_nil _ _), hft]
          simp [dayFoldList]
        · rw [if_neg hft, if_neg (List.cons_ne_nil _ _)]
          congr 1
    · have hfilter : (p :: t).filter (fun q => firstMatchIdx payload q = some i) =
          t.filter (fun q => firstMatchIdx payload q = some i) := by
        rw [List.filter_cons, if_neg (by simp [hm])]
      rw [hfilter]
      have hstep : (scanStep payload res p).segMinutes.lookup i = res.segMinutes.lookup i ∧
          (scanStep payload res p).segDayMinutes.lookup i = res.segDayMinutes.lookup i := by
        unfold scanStep
        cases hF : firstMatchIdx payload p with
        | none => exact ⟨rfl, rfl⟩
        | some idx =>
          have hne : i ≠ idx := fun h => hm (by rw [hF, h])
          constructor
          · exact lookup_bump_ne _ _ _ hne
          · rw [lookup_bumpInner_ne _ _ _ _ hne, lookup_setdefaultDay_ne _ _ _ hne]
      obtain ⟨ih1, ih2⟩ := scan_fold_lookup payload i t (scanStep payload res p)
      rw [ih1, ih2, hstep.1, hstep.2]
      exact ⟨rfl, rfl⟩

theorem collect_scan_lookup (payload : List SegmentE) (entry exitT : Int) (i : Nat) :
    (collectSegmentMinutesByScan payload entry exitT).segMinutes.lookup i =
      (if scanSegmentPoints payload entry exitT i = [] then none
       else some (scanSegmentPoints payload entry exitT i).length) ∧
    (collectSegmentMinutesByScan payload entry exitT).segDayMinutes.lookup i =
      (if scanSegmentPoints payload entry exitT i = [] then none
       else some (dayFoldList (resolveWindowTimezone (payload.getD i default)) []
         (scanSegmentPoints payload entry exitT i))) := by
  rw [scan_as_points_fold]
  obtain ⟨h1, h2⟩ := scan_fold_lookup payload i (gridPoints entry exitT)
    { segMinutes := [], segDayMinutes := [] }
  unfold scanSegmentPoints
  rw [h1, h2]
  constructor
  · split
    · rfl
    · simp
  · split
    · rfl
    · rfl

/-! ## First-match characterisation of the scan's per-segment points -/

theorem firstMatchIdx_cons (seg : SegmentE) (rest : List SegmentE) (p : Int) :
    firstMatchIdx (seg :: rest) p =
      if itemMatches p seg then some 0
      else (firstMatchIdx rest p).map (fun k => k + 1) := by
  unfold firstMatchIdx
  rw [List.findIdx?_cons]
  by_cases h : itemMatches p seg
  · rw [if_pos h, if_pos h]
  · rw [if_neg h, if_neg h, List.findIdx?_succ]

theorem firstMatchIdx_lt_length : ∀ (payload : List SegmentE) (p : Int) (j : Nat),
    firstMatchIdx payload p = some j → j < payload.length
  | [], p, j, h => by
    unfold firstMatchIdx at h
    rw [List.findIdx?_nil] at h
    exact Option.noConfusion h
  | seg :: rest, p, j, h => by
    rw [firstMatchIdx_cons] at h
    split at h
    · injection h with h
      rw [← h]
      simp
    · cases hF : firstMatchIdx rest p with
      | none =>
        rw [hF] at h
        exact Option.noConfusion h
      | some j0 =>
        rw [hF] at h
        simp only [Option.map_some'] at h
        injection h with h
        have := firstMatchIdx_lt_length rest p j0 hF
        rw [← h]
        simp only [List.length_cons]
        omega

theorem bool_eq_of_iff {a b : Bool} (h : a = true ↔ b = true) : a = b := by
  cases a <;> cases b <;> simp_all

theorem scanPointsList_getD (entry exitT : Int) :
    ∀ (segs : List SegmentE) (prior : Int → Bool) (F : Int → Option Nat),
      (∀ (p : Int) (k : Nat), F p = some k ↔
        (prior p = false ∧ firstMatchIdx segs p = some k)) →
      ∀ i : Nat, (scanPointsList entry exitT prior segs).getD i [] =
        (gridPoints entry exitT).filter (fun p => F p = some i)
  | [], prior, F, hF, i => by
    simp only [scanPointsList]
    have hnil : (([] : List (List Int))).getD i [] = [] := by cases i <;> rfl
    rw [hnil]
    symm
    rw [List.filter_eq_nil_iff]
    intro p hp
    simp only [decide_eq_true_eq]
    intro hc
    have h2 := ((hF p i).mp hc).2
    unfold firstMatchIdx at h2
    rw [List.findIdx?_nil] at h2
    exact Option.noConfusion h2
  | seg :: rest, prior, F, hF, i => by
    cases i with
    | zero =>
      simp only [scanPointsList, List.getD_cons_zero]
      refine List.filter_congr ?_
      intro p hp
      refine bool_eq_of_iff ?_
      simp only [Bool.and_eq_true, Bool.not_eq_true', decide_eq_true_eq]
      rw [hF p 0, firstMatchIdx_cons]
      constructor
      · rintro ⟨h1, h2⟩
        refine ⟨h2, ?_⟩
        rw [if_pos h1]
      · rintro ⟨h2, h1⟩
        refine ⟨?_, h2⟩
        by_cases hmm : itemMatches p seg
        · exact hmm
        · rw [if_neg hmm] at h1
          cases hFr : firstMatchIdx rest p with
          | none =>
            rw [hFr] at h1
            exact Option.noConfusion h1
          | some k0 =>
            rw [hFr] at h1
            simp only [Option.map_some'] at h1
            injection h1 with h1
            exact absurd h1 (by omega)
    | succ n =>
      simp only [scanPointsList, List.getD_cons_succ]
      have hF1 : ∀ (p : Int) (k : Nat),
          (match F p with
            | some (Nat.succ k0) => some k0
            | _ => none) = some k ↔
            ((prior p || itemMatches p seg) = false ∧ firstMatchIdx rest p = some k) := by
        intro p k
        constructor
        · intro h
          rcases hFp : F p with _ | k1
          · rw [hFp] at h
            exact Option.noConfusion h
          · rcases k1 with _ | k0
            · rw [hFp] at h
              exact Option.noConfusion h
            · rw [hFp] at h
              injection h with h
              obtain ⟨hpr, hfm⟩ := (hF p (k0 + 1)).mp hFp
              rw [firstMatchIdx_cons] at hfm
              by_cases hmm : itemMatches p seg
              · rw [if_pos hmm] at hfm
                injection hfm with hfm
                exact absurd hfm (by omega)
              · rw [if_neg hmm] at hfm
                cases hFr : firstMatchIdx rest p with
                | none =>
                  rw [hFr] at hfm
                  exact Option.noConfusion hfm
                | some j0 =>
                  rw [hFr] at hfm
                  simp only [Option.map_some'] at hfm
                  injection hfm with hfm
                  refine ⟨?_, ?_⟩
                  · rw [Bool.or_eq_false_iff]
                    exact ⟨hpr, by
                      cases hval : itemMatches p seg
                      · rfl
                      · exact absurd hval hmm⟩
                  · congr 1
                    omega
        · rintro ⟨hpr1, hfm⟩
          rw [Bool.or_eq_false_iff] at hpr1
          have hFP : F p = some (k + 1) := by
            rw [hF p (k + 1)]
            refine ⟨hpr1.1, ?_⟩
            rw [firstMatchIdx_cons, if_neg (by simp [hpr1.2]), hfm]
            rfl
          rw [hFP]
      rw [scanPointsList_getD entry exitT rest (fun p => prior p || itemMatches p seg)
        (fun p => match F p with
          | some (Nat.succ k0) => some k0
          | _ => none) hF1 n]
      refine List.filter_congr ?_
      intro p hp
      refine bool_eq_of_iff ?_
      simp only [decide_eq_true_eq]
      constructor
      · intro h
        rcases hFp : F p with _ | k1
        · rw [hFp] at h
          exact Option.noConfusion h
        · rcases k1 with _ | k0
          · rw [hFp] at h
            exact Option.noConfusion h
          · rw [hFp] at h
            injection h with h
            congr 1
            omega
      · intro h
        rw [h]

theorem getD_map_points (entry exitT : Int) :
    ∀ (L : List (List (Int × Int))) (i : Nat),
      (L.map (pointsOfIntervals entry exitT)).getD i [] =
        pointsOfIntervals entry exitT (L.getD i [])
  | [], i => by
    cases i <;> rfl
  | l :: t, i => by
    cases i with
    | zero => rfl
    | succ n => exact getD_map_points entry exitT t n

/-! ## Alignment of the active intervals and remaining glue -/

theorem getD_mem_or_default {α : Type} : ∀ (l : List α) (i : Nat) (d : α),
    l.getD i d ∈ l ∨ l.getD i d = d
  | [], i, d => Or.inr (by cases i <;> rfl)
  | _ :: _, 0, _ => Or.inl (List.mem_cons_self _ _)
  | a :: t, i + 1, d => by
    rw [List.getD_cons_succ]
    rcases getD_mem_or_default t i d with h | h
    · exact Or.inl (List.mem_cons_of_mem _ h)
    · exact Or.inr h

theorem activeIntervalsList_aligned (entry exitT : Int) (hdiv : 60 ∣ entry) :
    ∀ (segs : List SegmentE) (covered : List (Int × Int)),
      (∀ se ∈ covered, se.1 < se.2 ∧ 60 ∣ se.1 ∧
        (60 ∣ se.2 ∨ se.2 = exitT) ∧ se.2 ≤ exitT ∧ entry ≤ se.1) →
      ∀ l ∈ activeIntervalsList segs entry exitT covered,
        ∀ se ∈ l, se.1 < se.2 ∧ 60 ∣ se.1 ∧
          (60 ∣ se.2 ∨ se.2 = exitT) ∧ se.2 ≤ exitT ∧ entry ≤ se.1
  | [], covered, hcov => by
    simp only [activeIntervalsList]
    intro l hl
    exact absurd hl (List.not_mem_nil l)
  | seg :: rest, covered, hcov => by
    obtain ⟨hc1, hc2⟩ := buildSegmentCandidateIntervals_struct seg entry exitT
    have hcovne : ∀ se ∈ covered, se.1 < se.2 := fun se hse => (hcov se hse).1
    simp only [activeIntervalsList]
    set A := subtractIntervals (buildSegmentCandidateIntervals seg entry exitT) covered with hA
    obtain ⟨ha1, ha2⟩ := subtractIntervals_struct
      (fun x => (60 ∣ x ∨ x = exitT) ∧ entry ≤ x)
      (fun x => (60 ∣ x ∨ x = exitT) ∧ x ≤ exitT)
      (buildSegmentCandidateIntervals seg entry exitT) covered
      (fun se hse => (hc1 se hse).1) hcovne hc2
      (fun se hse => ⟨⟨Or.inl ((hc1 se hse).2.1.2 hdiv), (hc1 se hse).2.1.1⟩,
        (hc1 se hse).2.2.2 hdiv, (hc1 se hse).2.2.1⟩)
      (fun se hse => by
        obtain ⟨g1, g2, g3, g4, g5⟩ := hcov se hse
        exact ⟨⟨g3, by omega⟩, Or.inl g2, by omega⟩)
    have hAprops : ∀ se ∈ A, se.1 < se.2 ∧ 60 ∣ se.1 ∧
        (60 ∣ se.2 ∨ se.2 = exitT) ∧ se.2 ≤ exitT ∧ entry ≤ se.1 := by
      intro se hse
      obtain ⟨g1, ⟨g2, g3⟩, ⟨g4, g5⟩, g6⟩ := ha1 se hse
      refine ⟨g1, ?_, g4, g5, g3⟩
      rcases g2 with g2 | g2
      · exact g2
      · omega
    intro l hl
    rcases List.mem_cons.mp hl with h | h
    · rw [h]
      exact hAprops
    · by_cases hemp : A = []
      · rw [if_pos hemp] at h
        exact activeIntervalsList_aligned entry exitT hdiv rest covered hcov l h
      · rw [if_neg hemp] at h
        have hm0 : ∀ se ∈ covered ++ A, se.1 < se.2 ∧
            (60 ∣ se.1 ∧ entry ≤ se.1) ∧ ((60 ∣ se.2 ∨ se.2 = exitT) ∧ se.2 ≤ exitT) := by
          intro se hse
          rcases List.mem_append.mp hse with h2 | h2
          · obtain ⟨g1, g2, g3, g4, g5⟩ := hcov se h2
            exact ⟨g1, ⟨g2, g5⟩, g3, g4⟩
          · obtain ⟨g1, g2, g3, g4, g5⟩ := hAprops se h2
            exact ⟨g1, ⟨g2, g5⟩, g3, g4⟩
        obtain ⟨hmg1, hmg2⟩ := mergeIntervals_props
          (fun x => 60 ∣ x ∧ entry ≤ x)
          (fun x => (60 ∣ x ∨ x = exitT) ∧ x ≤ exitT)
          (covered ++ A) hm0
        refine activeIntervalsList_aligned entry exitT hdiv rest
          (mergeIntervals (covered ++ A)) ?_ l h
        intro se hse
        obtain ⟨g1, ⟨g2, g3⟩, g4, g5⟩ := hmg1 se hse
        exact ⟨g1, g2, g4, g5, g3⟩

theorem foldl_charge_total
    (step : List SegmentCharge × ℚ → (Nat × Nat) → List SegmentCharge × ℚ)
    (hstep : ∀ st b, ∃ c : SegmentCharge,
      step st b = (st.1 ++ [c], st.2 + c.amount) ∧ ∃ n : ℤ, c.amount = (n : ℚ) / 100)
    (l : List (Nat × Nat)) :
    quantizeHalfUp (l.foldl step ([], 0)).2 =
        ((l.foldl step ([], 0)).1.map SegmentCharge.amount).sum ∧
      ∀ c ∈ (l.foldl step ([], 0)).1, quantizeHalfUp c.amount = c.amount := by
  obtain ⟨h1, ⟨n, hn⟩, h3⟩ := foldl_charge_invariant step hstep l ([], 0) rfl
    ⟨0, by norm_num⟩ (fun c hc => absurd hc (List.not_mem_nil c))
  refine ⟨?_, fun c hc => ?_⟩
  · rw [hn, quantizeHalfUp_cast, ← hn, h1]
  · obtain ⟨m, hm⟩ := h3 c hc
    rw [hm, quantizeHalfUp_cast]

/-- C7: for every rule payload and every `entry_time < exit_time`, the
`total_amount` returned by `simulate_fee` equals the sum of the per-segment
breakdown amounts; each breakdown amount is an exact two-decimal value (a
fixed point of HALF_UP quantisation to two decimals); the per-segment
minute-point lists of `collect_segment_minutes_by_window` are pairwise
disjoint; every attributed point is a minute-grid point of `[entry, exit)`;
and the collector's per-segment minute counts are exactly the sizes of those
disjoint point lists - so no minute of the stay is counted toward more than
one segment. -/
theorem simulate_fee_total_and_minute_disjoint
    (payload : List SegmentE) (entry exitT : Int) (h : entry < exitT) :
    (simulateFee payload entry exitT).totalAmount =
        ((simulateFee payload entry exitT).breakdown.map SegmentCharge.amount).sum ∧
      (∀ c ∈ (simulateFee payload entry exitT).breakdown,
        quantizeHalfUp c.amount = c.amount) ∧
      List.Pairwise (fun l1 l2 => ∀ p : Int, p ∈ l1 → p ∉ l2)
        (windowSegmentPoints payload entry exitT) ∧
      (∀ l ∈ windowSegmentPoints payload entry exitT, ∀ p ∈ l,
        entry ≤ p ∧ p < exitT ∧ ∃ j : ℤ, 0 ≤ j ∧ p = entry + 60 * j) ∧
      ∀ i : Nat, (collectSegmentMinutesByWindow payload entry exitT).segMinutes.lookup i =
        (if (windowSegmentPoints payload entry exitT).getD i [] = [] then none
         else some ((windowSegmentPoints payload entry exitT).getD i []).length) := by
  have hfacts := activeIntervalsList_facts entry exitT payload []
    (fun se hse => absurd hse (List.not_mem_nil se))
  have hc : List.Pairwise (fun l1 l2 => ∀ p : Int, p ∈ l1 → p ∉ l2)
      (windowSegmentPoints payload entry exitT) := by
    unfold windowSegmentPoints
    refine List.Pairwise.map _ ?_ hfacts.2
    intro a b hab p hpa hpb
    rw [mem_pointsOfIntervals] at hpa hpb
    exact hab p hpa.1 hpb.1
  have hd : ∀ l ∈ windowSegmentPoints payload entry exitT, ∀ p ∈ l,
      entry ≤ p ∧ p < exitT ∧ ∃ j : ℤ, 0 ≤ j ∧ p = entry + 60 * j := by
    intro l hl p hp
    unfold windowSegmentPoints at hl
    obtain ⟨a, ha, hla⟩ := List.mem_map.mp hl
    rw [← hla] at hp
    rw [mem_pointsOfIntervals] at hp
    obtain ⟨hm, hx, j, hj0, hpj⟩ := hp
    exact ⟨by omega, hx, j, hj0, hpj⟩
  have he : ∀ i : Nat,
      (collectSegmentMinutesByWindow payload entry exitT).segMinutes.lookup i =
        (if (windowSegmentPoints payload entry exitT).getD i [] = [] then none
         else some ((windowSegmentPoints payload entry exitT).getD i []).length) := by
    intro i
    rw [(collect_window_lookup payload entry exitT i).1]
    unfold windowSegmentPoints
    rw [getD_map_points]
  have hab : (simulateFee payload entry exitT).totalAmount =
      ((simulateFee payload entry exitT).breakdown.map SegmentCharge.amount).sum ∧
      ∀ c ∈ (simulateFee payload entry exitT).breakdown,
        quantizeHalfUp c.amount = c.amount := by
    unfold simulateFee
    rw [if_neg (by omega : ¬ exitT ≤ entry)]
    dsimp only
    refine foldl_charge_total _ ?_ _
    intro st im
    refine ⟨_, rfl, ?_⟩
    exact quantizeHalfUp_cents _
  exact ⟨hab.1, hab.2, hc, hd, he⟩

theorem simulate_fee_total_and_minute_disjoint_witness :
    (3600 : Int) < 198600 ∧
      ((simulateFee [c8Segment] 3600 198600).totalAmount =
          ((simulateFee [c8Segment] 3600 198600).breakdown.map SegmentCharge.amount).sum ∧
        (∀ c ∈ (simulateFee [c8Segment] 3600 198600).breakdown,
          quantizeHalfUp c.amount = c.amount) ∧
        List.Pairwise (fun l1 l2 => ∀ p : Int, p ∈ l1 → p ∉ l2)
          (windowSegmentPoints [c8Segment] 3600 198600) ∧
        (∀ l ∈ windowSegmentPoints [c8Segment] 3600 198600, ∀ p ∈ l,
          (3600 : Int) ≤ p ∧ p < 198600 ∧ ∃ j : ℤ, 0 ≤ j ∧ p = 3600 + 60 * j) ∧
        ∀ i : Nat,
          (collectSegmentMinutesByWindow [c8Segment] 3600 198600).segMinutes.lookup i =
            (if (windowSegmentPoints [c8Segment] 3600 198600).getD i [] = [] then none
             else some ((windowSegmentPoints [c8Segment] 3600 198600).getD i []).length)) :=
  ⟨by decide, simulate_fee_total_and_minute_disjoint [c8Segment] 3600 198600 (by decide)⟩

/-- C10 (counterexample): with a single periodic segment whose window is the
one wall-clock minute 00:01-00:02 (offset 0) and a stay from 30s to 90s, the
interval collector registers segment 0 in `segment_day_minutes` (with an
empty inner map, because its active interval [60, 90) holds no scan-grid
point 30+60k), while the deprecated scan - whose only cursor 30 falls in
minute 00:00 - never touches the segment: the two results differ as dicts,
so the unqualified equivalence claim fails. -/
theorem collect_window_scan_divergence :
    (collectSegmentMinutesByWindow [c10Segment] 30 90).segDayMinutes.lookup 0 = some [] ∧
      (collectSegmentMinutesByScan [c10Segment] 30 90).segDayMinutes.lookup 0 = none ∧
      ¬ collectEquiv (collectSegmentMinutesByWindow [c10Segment] 30 90)
          (collectSegmentMinutesByScan [c10Segment] 30 90) := by
  have hw : (collectSegmentMinutesByWindow [c10Segment] 30 90).segDayMinutes.lookup 0 =
      some [] := by decide
  have hs : (collectSegmentMinutesByScan [c10Segment] 30 90).segDayMinutes.lookup 0 =
      none := by decide
  refine ⟨hw, hs, fun hequiv => ?_⟩
  have h0 := hequiv.2 0
  rw [hw, hs] at h0
  exact Option.noConfusion h0

/-- C10 (amended): for every rule payload whose window bounds are within one
day (as schema validation guarantees) and every minute-aligned entry instant
before the exit instant, the interval-based
`collect_segment_minutes_by_window` returns the same per-segment minute
totals and the same per-local-date minute maps as the deprecated
minute-by-minute `_collect_segment_minutes_by_scan`, in the sense of Python
dict equality (the insertion order of the outer keys may differ). -/
theorem collect_window_eq_scan_aligned (payload : List SegmentE) (entry exitT : Int)
    (hwf : wellFormedWindows payload) (hdiv : 60 ∣ entry) (hlt : entry < exitT) :
    collectEquiv (collectSegmentMinutesByWindow payload entry exitT)
      (collectSegmentMinutesByScan payload entry exitT) := by
  have hpts : (activeIntervalsList payload entry exitT []).map
      (pointsOfIntervals entry exitT) = scanPointsList entry exitT (fun _ => false) payload :=
    activeIntervalsList_points_eq entry exitT hdiv payload [] (fun _ => false)
      hwf (fun se hse => absurd hse (List.not_mem_nil se))
      (fun p _ _ => iff_of_false (by simp) (memI_nil p))
  have hscan : ∀ i : Nat, (scanPointsList entry exitT (fun _ => false) payload).getD i [] =
      scanSegmentPoints payload entry exitT i := by
    intro i
    rw [scanPointsList_getD entry exitT payload (fun _ => false) (firstMatchIdx payload)
      (fun p k => by simp) i]
    rfl
  have hpts_i : ∀ i : Nat, pointsOfIntervals entry exitT
      ((activeIntervalsList payload entry exitT []).getD i []) =
      scanSegmentPoints payload entry exitT i := by
    intro i
    rw [← getD_map_points, hpts, hscan i]
  have hiff : ∀ i : Nat,
      ((activeIntervalsList payload entry exitT []).getD i [] = []) ↔
        (pointsOfIntervals entry exitT
          ((activeIntervalsList payload entry exitT []).getD i []) = []) := by
    intro i
    constructor
    · intro h
      rw [h]
      rfl
    · intro h
      by_contra hne
      refine pointsOfIntervals_ne entry exitT _ hdiv hne ?_ h
      intro se hse
      have hmem := getD_mem_or_default (activeIntervalsList payload entry exitT []) i []
      rcases hmem with hmem | hmem
      · obtain ⟨g1, g2, g3, g4, g5⟩ := activeIntervalsList_aligned entry exitT hdiv payload []
          (fun se2 hse2 => absurd hse2 (List.not_mem_nil se2)) _ hmem se hse
        exact ⟨g1, g2, g5, g4⟩
      · rw [hmem] at hse
        exact absurd hse (List.not_mem_nil se)
  constructor
  · intro i
    rw [(collect_window_lookup payload entry exitT i).1,
      (collect_scan_lookup payload entry exitT i).1, hpts_i i]
  · intro i
    rw [(collect_window_lookup payload entry exitT i).2,
      (collect_scan_lookup payload entry exitT i).2, ← hpts_i i]
    by_cases hia : (activeIntervalsList payload entry exitT []).getD i [] = []
    · rw [if_pos hia, if_pos ((hiff i).mp hia)]
    · rw [if_neg hia, if_neg (fun hp => hia ((hiff i).mpr hp))]

theorem collect_window_eq_scan_aligned_witness :
    (wellFormedWindows [c8Segment] ∧ (60 : Int) ∣ 3600 ∧ (3600 : Int) < 198600) ∧
      collectEquiv (collectSegmentMinutesByWindow [c8Segment] 3600 198600)
        (collectSegmentMinutesByScan [c8Segment] 3600 198600) := by
  have hwf : wellFormedWindows [c8Segment] := by
    intro seg hseg w hw
    rw [List.mem_singleton] at hseg
    subst hseg
    rw [show c8Segment.timeWindow = some ⟨480, 1200, 480⟩ from rfl] at hw
    injection hw with hw
    rw [← hw]
    refine ⟨by decide, by decide, by decide, by decide⟩
  exact ⟨⟨hwf, by decide, by decide⟩,
    collect_window_eq_scan_aligned [c8Segment] 3600 198600 hwf (by decide) (by decide)⟩

end Parksuite
